import Mathlib

/-!
Verification of the CiCLI pipeline conversion engine (package `converter`).

The Go source is shallowly embedded: the IR record types (`PipelineConfig`,
`Trigger`, `Job`, `Step`, ...) become Lean structures; the string-builder
generators become pure functions producing `String`; the parsers become
functions over a generic YAML document tree `Yaml` (the shape produced by
`yaml.Unmarshal` into `map[string]interface{}`), with mapping keys kept in
document order; the `Convert` orchestrator is modelled with an explicit
file-system state.  Go maps iterated by the parsers are embedded as ordered
association lists (document order), a deterministic refinement of Go's
unspecified map iteration order.
-/

set_option maxRecDepth 10000

namespace CiCLI

/-- The `Platform` enumeration from the source. -/
inductive Platform
  | github
  | gitlab
  | jenkins
  | circleci
  | azure
  | bitbucket
deriving DecidableEq, Repr

/-- `Trigger` struct: what triggers the pipeline. -/
structure Trigger where
  type : String
  branches : List String := []
  paths : List String := []
  cron : String := ""
deriving DecidableEq, Repr

/-- `Service` struct: a service container. -/
structure Service where
  name : String
  image : String
  ports : List String := []
  env : List (String × String) := []
deriving DecidableEq, Repr

/-- `Step` struct.  Go's `With` map becomes the ordered list `withArgs`;
Go's `If` field becomes `ifCond` (`with`/`if` are Lean keywords). -/
structure Step where
  name : String := ""
  uses : String := ""
  run : String := ""
  withArgs : List (String × String) := []
  env : List (String × String) := []
  ifCond : String := ""
  workDir : String := ""
deriving DecidableEq, Repr

/-- `Artifact` struct. -/
structure Artifact where
  name : String
  paths : List String
deriving DecidableEq, Repr

/-- `Cache` struct. -/
structure Cache where
  key : String
  paths : List String
deriving DecidableEq, Repr

/-- `Job` struct. -/
structure Job where
  name : String
  runsOn : String := ""
  dependsOn : List String := []
  environment : List (String × String) := []
  services : List Service := []
  steps : List Step := []
  artifacts : List Artifact := []
  cache : List Cache := []
  condition : String := ""
deriving DecidableEq, Repr

/-- `PipelineConfig` struct: the root of the IR. -/
structure PipelineConfig where
  name : String
  triggers : List Trigger := []
  environment : List (String × String) := []
  jobs : List Job := []
deriving DecidableEq, Repr

/-- Concatenation of a list of strings (the accumulated `strings.Builder`). -/
def joinStr : List String → String
  | [] => ""
  | s :: ss => s ++ joinStr ss

/-- `strings.Contains(s, sub)` from the Go standard library. -/
def strContains (s sub : String) : Bool :=
  decide (sub.data <:+: s.data)

/-- `strings.HasPrefix(s, pre)`. -/
def strHasPrefix (s pre : String) : Bool :=
  List.isPrefixOf pre.data s.data

/-- Fuelled worker for `strings.ReplaceAll`: replaces non-overlapping
occurrences of `pat` left to right.  Fuel `s.length` suffices because every
step consumes at least one character.  (Go's special behaviour for an empty
`old` string is not reproduced; all patterns used in the source are
non-empty.) -/
def goReplF (pat rep : List Char) : Nat → List Char → List Char
  | _, [] => []
  | 0, l => l
  | f + 1, c :: cs =>
    if pat ≠ [] ∧ List.isPrefixOf pat (c :: cs) then
      rep ++ goReplF pat rep f (List.drop (pat.length - 1) cs)
    else
      c :: goReplF pat rep f cs

/-- `strings.ReplaceAll(s, pat, rep)`. -/
def goReplaceAll (pat rep s : String) : String :=
  String.mk (goReplF pat.data rep.data s.data.length s.data)

/-- `strings.ToLower` (ASCII case folding; the names in play are ASCII). -/
def strToLower (s : String) : String :=
  String.mk (s.data.map Char.toLower)

/-- `sanitizeName` from the source: spaces and underscores become dashes,
then the result is lower-cased. -/
def sanitizeName (name : String) : String :=
  strToLower (goReplaceAll "_" "-" (goReplaceAll " " "-" name))

/-- `convertCondition` from the source. -/
def convertCondition (condition : String) (target : Platform) : String :=
  match target with
  | .github => condition
  | .gitlab => goReplaceAll "github." "$CI_" condition
  | _ => condition

/-- Lookup in the embedded `With` map (Go map indexing, zero value `""`). -/
def withLookup (m : List (String × String)) (k : String) : String :=
  match m.find? (fun kv => kv.1 = k) with
  | some kv => kv.2
  | none => ""

/-- `convertActionToCommand` from the source. -/
def convertActionToCommand (step : Step) : String :=
  if strContains step.uses "checkout" then ""
  else if strContains step.uses "setup-node" then
    let version := withLookup step.withArgs "node-version"
    let version := if version = "" then "18" else version
    "nvm install " ++ version ++ " && nvm use " ++ version
  else if strContains step.uses "setup-go" then "# Go setup - configure in image"
  else if strContains step.uses "setup-python" then
    let version := withLookup step.withArgs "python-version"
    let version := if version = "" then "3.11" else version
    "pyenv install " ++ version ++ " && pyenv global " ++ version
  else "# Action: " ++ step.uses ++ " (manual conversion needed)"

/-- `escapeJenkinsString` from the source. -/
def escapeJenkinsString (s : String) : String :=
  goReplaceAll "\x27" "\\\x27" s

/- ------------------------------------------------------------------ -/
/- Generators                                                          -/
/- ------------------------------------------------------------------ -/

/-- One trigger's contribution to the GitHub `on:` block. -/
def ghTrigger (t : Trigger) : String :=
  if t.type = "push" then
    "  push:\n" ++
      (if t.branches ≠ [] then
        "    branches:\n" ++ joinStr (t.branches.map (fun b => "      - " ++ b ++ "\n"))
      else "")
  else if t.type = "pull_request" then
    "  pull_request:\n" ++
      (if t.branches ≠ [] then
        "    branches:\n" ++ joinStr (t.branches.map (fun b => "      - " ++ b ++ "\n"))
      else "")
  else if t.type = "schedule" then
    "  schedule:\n" ++ "    - cron: \x27" ++ t.cron ++ "\x27\n"
  else ""

/-- The generator's checkout test: some step whose `uses` contains the
substring `checkout`. -/
def ghHasCheckout (steps : List Step) : Bool :=
  steps.any (fun s => strContains s.uses "checkout")

/-- One step's contribution to a GitHub job's `steps:` block. -/
def ghStep (s : Step) : String :=
  (if s.name ≠ "" then "      - name: " ++ s.name ++ "\n" else "      -") ++
  (if s.uses ≠ "" then
    (if s.name ≠ "" then "        uses: " ++ s.uses ++ "\n" else " uses: " ++ s.uses ++ "\n") ++
    (if s.withArgs ≠ [] then
      "        with:\n" ++
        joinStr (s.withArgs.map (fun kv => "          " ++ kv.1 ++ ": " ++ kv.2 ++ "\n"))
    else "")
  else if s.run ≠ "" then
    (if s.name ≠ "" then "        run: " ++ s.run ++ "\n" else " run: " ++ s.run ++ "\n")
  else "") ++
  (if s.ifCond ≠ "" then "        if: " ++ s.ifCond ++ "\n" else "")

/-- One job's contribution to the GitHub `jobs:` block. -/
def ghJob (j : Job) : String :=
  "  " ++ sanitizeName j.name ++ ":\n" ++
  "    runs-on: " ++ j.runsOn ++ "\n" ++
  (if j.dependsOn ≠ [] then
    "    needs:\n" ++ joinStr (j.dependsOn.map (fun d => "      - " ++ d ++ "\n"))
  else "") ++
  (if j.condition ≠ "" then
    "    if: " ++ convertCondition j.condition Platform.github ++ "\n"
  else "") ++
  "    steps:\n" ++
  (if ghHasCheckout j.steps then "" else "      - uses: actions/checkout@v4\n") ++
  joinStr (j.steps.map ghStep)

/-- `generateGitHub` from the source. -/
def generateGitHub (config : PipelineConfig) : String :=
  "name: " ++ config.name ++ "\n\n" ++
  "on:\n" ++ joinStr (config.triggers.map ghTrigger) ++
  "\njobs:\n" ++ joinStr (config.jobs.map ghJob)

/-- One step's contribution to a GitLab job's `script:` list. -/
def glStep (s : Step) : String :=
  if s.run ≠ "" then "    - " ++ s.run ++ "\n"
  else if s.uses ≠ "" then
    let cmd := convertActionToCommand s
    if cmd ≠ "" then "    - " ++ cmd ++ "\n" else ""
  else ""

/-- One job's contribution to the GitLab output. -/
def glJob (j : Job) : String :=
  sanitizeName j.name ++ ":\n" ++
  "  stage: " ++ sanitizeName j.name ++ "\n" ++
  (if j.dependsOn ≠ [] then
    "  needs:\n" ++ joinStr (j.dependsOn.map (fun d => "    - " ++ d ++ "\n"))
  else "") ++
  (if j.condition ≠ "" then
    "  rules:\n" ++ "    - if: " ++ convertCondition j.condition Platform.gitlab ++ "\n"
  else "") ++
  "  script:\n" ++ joinStr (j.steps.map glStep) ++ "\n"

/-- `generateGitLab` from the source. -/
def generateGitLab (config : PipelineConfig) : String :=
  "stages:\n" ++
  joinStr (config.jobs.map (fun j => "  - " ++ sanitizeName j.name ++ "\n")) ++ "\n" ++
  joinStr (config.jobs.map glJob)

/-- One step's contribution to a CircleCI job. -/
def ccStep (s : Step) : String :=
  if s.run ≠ "" then
    "      - run:\n" ++
    (if s.name ≠ "" then "          name: " ++ s.name ++ "\n" else "") ++
    "          command: " ++ s.run ++ "\n"
  else ""

/-- One job's contribution to the CircleCI `jobs:` block. -/
def ccJob (j : Job) : String :=
  "  " ++ sanitizeName j.name ++ ":\n" ++
  "    docker:\n" ++ "      - image: cimg/base:stable\n" ++
  "    steps:\n" ++ "      - checkout\n" ++
  joinStr (j.steps.map ccStep)

/-- One job's entry in the CircleCI `workflows:` block. -/
def ccWorkflowEntry (j : Job) : String :=
  if j.dependsOn ≠ [] then
    "      - " ++ sanitizeName j.name ++ ":\n" ++
    "          requires:\n" ++
    joinStr (j.dependsOn.map (fun d => "            - " ++ d ++ "\n"))
  else "      - " ++ sanitizeName j.name ++ "\n"

/-- `generateCircleCI` from the source. -/
def generateCircleCI (config : PipelineConfig) : String :=
  "version: 2.1\n\n" ++ "jobs:\n" ++
  joinStr (config.jobs.map ccJob) ++
  "\nworkflows:\n" ++ "  " ++ sanitizeName config.name ++ ":\n" ++ "    jobs:\n" ++
  joinStr (config.jobs.map ccWorkflowEntry)

/-- One trigger's contribution to the Azure `trigger:` block. -/
def azTrigger (t : Trigger) : String :=
  if t.type = "push" ∧ t.branches ≠ [] then
    "  branches:\n" ++ "    include:\n" ++
    joinStr (t.branches.map (fun b => "      - " ++ b ++ "\n"))
  else ""

/-- One step's contribution to an Azure job. -/
def azStep (s : Step) : String :=
  if s.run ≠ "" then
    "          - script: |\n" ++ "              " ++ s.run ++ "\n" ++
    (if s.name ≠ "" then "            displayName: \x27" ++ s.name ++ "\x27\n" else "")
  else ""

/-- One job's contribution to the Azure `stages:` block. -/
def azJob (j : Job) : String :=
  "  - stage: " ++ sanitizeName j.name ++ "\n" ++
  "    jobs:\n" ++
  "      - job: " ++ sanitizeName j.name ++ "\n" ++
  (if j.dependsOn ≠ [] then
    "        dependsOn:\n" ++ joinStr (j.dependsOn.map (fun d => "          - " ++ d ++ "\n"))
  else "") ++
  "        steps:\n" ++ "          - checkout: self\n" ++
  joinStr (j.steps.map azStep)

/-- `generateAzure` from the source. -/
def generateAzure (config : PipelineConfig) : String :=
  "name: " ++ config.name ++ "\n\n" ++
  "trigger:\n" ++ joinStr (config.triggers.map azTrigger) ++
  "\npool:\n" ++ "  vmImage: \x27ubuntu-latest\x27\n\n" ++
  "stages:\n" ++ joinStr (config.jobs.map azJob)

/-- One step's contribution to a Jenkins stage. -/
def jkStep (s : Step) : String :=
  if s.run ≠ "" then
    "                sh \x27" ++ escapeJenkinsString s.run ++ "\x27\n"
  else ""

/-- One job's stage in the Jenkins output. -/
def jkStage (j : Job) : String :=
  "        stage(\x27" ++ j.name ++ "\x27) \x7b\n" ++
  "            steps \x7b\n" ++
  joinStr (j.steps.map jkStep) ++
  "            \x7d\n" ++ "        \x7d\n"

/-- `generateJenkins` from the source. -/
def generateJenkins (config : PipelineConfig) : String :=
  "pipeline \x7b\n" ++ "    agent any\n\n" ++ "    stages \x7b\n" ++
  joinStr (config.jobs.map jkStage) ++
  "    \x7d\n" ++ "\x7d\n"

/- ------------------------------------------------------------------ -/
/- Generic YAML document trees and the platform parsers                -/
/- ------------------------------------------------------------------ -/

/-- A decoded YAML document: the generic `map[string]interface{}` /
`[]interface{}` / scalar tree that `yaml.Unmarshal` produces.  Mapping keys
are kept in document order (a deterministic refinement of Go's unspecified
map iteration order). -/
inductive Yaml
  | null
  | str (s : String)
  | seq (items : List Yaml)
  | ymap (entries : List (String × Yaml))

/-- Go map lookup `m[key]` on a decoded mapping. -/
def ymlGet (m : List (String × Yaml)) (k : String) : Option Yaml :=
  (m.find? (fun kv => kv.1 = k)).map (fun kv => kv.2)

/-- `getString` from the source: `m[key].(string)` with zero value `""`. -/
def getString (m : List (String × Yaml)) (k : String) : String :=
  match ymlGet m k with
  | some (Yaml.str s) => s
  | _ => ""

/-- `fmt.Sprint` applied to a decoded YAML scalar.  The parsers only apply
it to sequence elements, which are strings in all behaviours the claims
exercise; composite values are not relied upon. -/
def fmtSprint : Yaml → String
  | Yaml.str s => s
  | Yaml.null => "<nil>"
  | _ => ""

/-- The body of `parseGitHub`'s steps loop: one GitHub step (a non-mapping
sequence element contributes nothing). -/
def ghStepOf : Yaml → Option Step
  | Yaml.ymap sd =>
    some
      { name := getString sd "name"
        uses := getString sd "uses"
        run := getString sd "run"
        ifCond := getString sd "if"
        withArgs :=
          match ymlGet sd "with" with
          | some (Yaml.ymap wm) => wm.map (fun kv => (kv.1, fmtSprint kv.2))
          | _ => [] }
  | _ => none

/-- The loop body of `parseGitHub`'s jobs loop: one GitHub job. -/
def parseGHJob (jobName : String) (jd : List (String × Yaml)) : Job :=
  { name := jobName
    runsOn := getString jd "runs-on"
    dependsOn :=
      match ymlGet jd "needs" with
      | some (Yaml.seq ns) => ns.map fmtSprint
      | _ => []
    steps :=
      match ymlGet jd "steps" with
      | some (Yaml.seq ss) => ss.filterMap ghStepOf
      | _ => [] }

/-- The body of `parseGitHub`'s jobs loop on one entry of the `jobs` mapping
(a non-mapping value contributes nothing). -/
def ghJobOf (kv : String × Yaml) : Option Job :=
  match kv.2 with
  | Yaml.ymap jd => some (parseGHJob kv.1 jd)
  | _ => none

/-- `parseGitHub` on a decoded document (lines 165-234 of the source). -/
def parseGitHubDoc (gh : List (String × Yaml)) : PipelineConfig :=
  { name := getString gh "name"
    triggers :=
      match ymlGet gh "on" with
      | some (Yaml.ymap onm) =>
        (match ymlGet onm "push" with
         | some (Yaml.ymap push) =>
           [{ type := "push"
              branches :=
                match ymlGet push "branches" with
                | some (Yaml.seq bs) => bs.map fmtSprint
                | _ => [] }]
         | _ => []) ++
        (match ymlGet onm "pull_request" with
         | some (Yaml.ymap pr) =>
           [{ type := "pull_request"
              branches :=
                match ymlGet pr "branches" with
                | some (Yaml.seq bs) => bs.map fmtSprint
                | _ => [] }]
         | _ => [])
      | _ => []
    jobs :=
      match ymlGet gh "jobs" with
      | some (Yaml.ymap jm) => jm.filterMap ghJobOf
      | _ => [] }

/-- First `rules[].if` string found, as in `parseGitLab`'s rules loop. -/
def glFirstRuleIf : List Yaml → String
  | [] => ""
  | Yaml.ymap rd :: rest =>
    match ymlGet rd "if" with
    | some (Yaml.str s) => s
    | _ => glFirstRuleIf rest
  | _ :: rest => glFirstRuleIf rest

/-- The loop body of `parseGitLab`'s job loop. -/
def parseGLJob (key : String) (jd : List (String × Yaml)) : Job :=
  { name := key
    runsOn := "ubuntu-latest"
    steps :=
      match ymlGet jd "script" with
      | some (Yaml.seq ss) => ss.map (fun s => { run := fmtSprint s })
      | _ => []
    dependsOn :=
      match ymlGet jd "needs" with
      | some (Yaml.seq ns) => ns.map fmtSprint
      | _ => []
    condition :=
      match ymlGet jd "rules" with
      | some (Yaml.seq rs) => glFirstRuleIf rs
      | _ => "" }

/-- `parseGitLab` on a decoded document. -/
def parseGitLabDoc (gl : List (String × Yaml)) : PipelineConfig :=
  { name := "Pipeline"
    triggers := [{ type := "push", branches := ["main"] }]
    jobs :=
      gl.filterMap (fun kv =>
        if kv.1 = "stages" ∨ kv.1 = "variables" ∨ kv.1 = "image" ∨ kv.1 = "default" then
          none
        else
          match kv.2 with
          | Yaml.ymap jd => some (parseGLJob kv.1 jd)
          | _ => none) }

/-- One CircleCI step (`parseCircleCI`'s steps switch). -/
def ccStepOf : Yaml → Option Step
  | Yaml.str st =>
    if st = "checkout" then some { name := "Checkout", uses := "actions/checkout@v4" }
    else none
  | Yaml.ymap sm =>
    match ymlGet sm "run" with
    | some (Yaml.ymap rm) => some { name := getString rm "name", run := getString rm "command" }
    | _ => none
  | _ => none

/-- The loop body of `parseCircleCI`'s job loop. -/
def parseCCJob (jobName : String) (jd : List (String × Yaml)) : Job :=
  { name := jobName
    runsOn :=
      match ymlGet jd "docker" with
      | some (Yaml.seq (d :: _)) =>
        (match d with
         | Yaml.ymap dm =>
           (match ymlGet dm "image" with
            | some (Yaml.str img) => img
            | _ => "ubuntu-latest")
         | _ => "ubuntu-latest")
      | _ => "ubuntu-latest"
    steps :=
      match ymlGet jd "steps" with
      | some (Yaml.seq ss) => ss.filterMap ccStepOf
      | _ => [] }

/-- `parseCircleCI` on a decoded document. -/
def parseCircleCIDoc (ci : List (String × Yaml)) : PipelineConfig :=
  { name := "Pipeline"
    triggers := [{ type := "push" }]
    jobs :=
      match ymlGet ci "jobs" with
      | some (Yaml.ymap jm) =>
        jm.filterMap (fun kv =>
          match kv.2 with
          | Yaml.ymap jd => some (parseCCJob kv.1 jd)
          | _ => none)
      | _ => [] }

/- ------------------------------------------------------------------ -/
/- Jenkins text parser                                                 -/
/- ------------------------------------------------------------------ -/

/-- Drop leading characters satisfying `p`. -/
def trimLeftP (p : Char → Bool) : List Char → List Char
  | [] => []
  | c :: cs => if p c then trimLeftP p cs else c :: cs

/-- Drop trailing characters satisfying `p`. -/
def trimRightP (p : Char → Bool) (l : List Char) : List Char :=
  (trimLeftP p l.reverse).reverse

/-- `strings.TrimSpace`. -/
def goTrimSpace (s : String) : String :=
  String.mk (trimRightP Char.isWhitespace (trimLeftP Char.isWhitespace s.data))

/-- `strings.Trim(s, cutset)`: remove leading and trailing characters that
appear in `cutset`. -/
def goTrim (s cutset : String) : String :=
  String.mk
    (trimRightP (fun c => cutset.data.contains c)
      (trimLeftP (fun c => cutset.data.contains c) s.data))

/-- `strings.TrimPrefix`. -/
def goTrimPrefix (s pre : String) : String :=
  if strHasPrefix s pre then String.mk (s.data.drop pre.data.length) else s

/-- `strings.Split(s, "\n")` on character lists. -/
def splitNl : List Char → List (List Char)
  | [] => [[]]
  | c :: cs =>
    if c = '\n' then [] :: splitNl cs
    else
      match splitNl cs with
      | [] => [[c]]
      | l :: ls => (c :: l) :: ls

/-- `parseJenkins` from the source: line-oriented extraction of `sh` steps
into a single synthesized `build` job. -/
def parseJenkins (content : String) : PipelineConfig :=
  let lines := splitNl content.data
  let steps := lines.filterMap (fun l =>
    let line := goTrimSpace (String.mk l)
    if strHasPrefix line "sh " ∨ strHasPrefix line "sh(" then
      let cmd := goTrimPrefix line "sh "
      let cmd := goTrim cmd "\x27\"()"
      some ({ run := cmd } : Step)
    else none)
  let steps :=
    if steps = [] then
      [{ name := "Build", run := "echo \x27Converted from Jenkins - please review\x27" }]
    else steps
  { name := "Pipeline"
    triggers := [{ type := "push" }]
    jobs := [{ name := "build", runsOn := "ubuntu-latest", steps := steps }] }

/- ------------------------------------------------------------------ -/
/- A model of yaml.v3 decoding on the block subset the generators emit -/
/- ------------------------------------------------------------------ -/

/-- One physical, non-blank line: indentation depth and content. -/
structure YLine where
  ind : Nat
  txt : List Char
deriving DecidableEq, Repr

/-- Classify one physical line: `none` for blank lines, otherwise
indentation depth and content. -/
def ylOf (l : List Char) : Option YLine :=
  let t := trimLeftP (fun c => c = ' ') l
  if t = [] then none else some ⟨l.length - t.length, t⟩

/-- Physical lines of a string: split on newlines, drop blank lines,
separate indentation from content. -/
def toLines (s : String) : List YLine :=
  (splitNl s.data).filterMap ylOf

/-- Split a line's content at its first colon. -/
def kvSplit : List Char → Option (List Char × List Char)
  | [] => none
  | c :: cs =>
    if c = ':' then some ([], cs)
    else
      match kvSplit cs with
      | some (k, r) => some (c :: k, r)
      | none => none

/-- Classify a content line: `some (k, some v)` for `k: v`, `some (k, none)`
for `k:` opening a nested block, `none` for a plain scalar line. -/
def kvOfTxt (txt : List Char) : Option (String × Option String) :=
  match kvSplit txt with
  | none => none
  | some (k, []) => some (String.mk k, none)
  | some (k, ' ' :: v) => some (String.mk k, some (String.mk v))
  | some _ => none

/-- A container under construction: a mapping (with an optional key whose
block value is still open) or a sequence. -/
inductive Frame
  | fmap (ind : Nat) (done : List (String × Yaml)) (pending : Option String)
  | fseq (ind : Nat) (done : List Yaml)

/-- Indentation level a frame's entries live at. -/
def frameInd : Frame → Nat
  | Frame.fmap i _ _ => i
  | Frame.fseq i _ => i

/-- Close a frame into a value; a dangling pending key gets a null value. -/
def closeFrame : Frame → Yaml
  | Frame.fmap _ done none => Yaml.ymap done
  | Frame.fmap _ done (some k) => Yaml.ymap (done ++ [(k, Yaml.null)])
  | Frame.fseq _ done => Yaml.seq done

/-- Attach a finished child value to its parent frame. -/
def attachVal (v : Yaml) : Frame → Option Frame
  | Frame.fmap i done (some k) => some (Frame.fmap i (done ++ [(k, v)]) none)
  | Frame.fseq i done => some (Frame.fseq i (done ++ [v]))
  | Frame.fmap _ _ none => none

/-- Worker for `closeTo`: the head frame is held apart so the recursion is
structural on the rest of the stack. -/
def closeToAux (i : Nat) (f : Frame) : List Frame → Option (List Frame)
  | [] => if i < frameInd f then none else some [f]
  | g :: rest =>
    if i < frameInd f then
      match attachVal (closeFrame f) g with
      | some g2 => closeToAux i g2 rest
      | none => none
    else some (f :: g :: rest)

/-- Close all frames whose indentation exceeds `i`. -/
def closeTo (i : Nat) : List Frame → Option (List Frame)
  | [] => none
  | f :: rest => closeToAux i f rest

/-- Process one content line inside a mapping frame at indentation `ind`. -/
def procMapLine (ind : Nat) (done : List (String × Yaml)) (pending : Option String)
    (txt : List Char) (rest : List Frame) : Option (List Frame) :=
  let done2 :=
    match pending with
    | some k => done ++ [(k, Yaml.null)]
    | none => done
  match kvOfTxt txt with
  | some (k, some v) => some (Frame.fmap ind (done2 ++ [(k, Yaml.str v)]) none :: rest)
  | some (k, none) => some (Frame.fmap ind done2 (some k) :: rest)
  | none => none

/-- Process one content line inside a sequence frame at indentation `ind`. -/
def procSeqLine (ind : Nat) (done : List Yaml) (txt : List Char)
    (rest : List Frame) : Option (List Frame) :=
  match txt with
  | ['-'] => some (Frame.fmap (ind + 2) [] none :: Frame.fseq ind done :: rest)
  | '-' :: ' ' :: r =>
    (match kvOfTxt r with
     | some (k, some v) =>
       some (Frame.fmap (ind + 2) [(k, Yaml.str v)] none :: Frame.fseq ind done :: rest)
     | some (k, none) =>
       some (Frame.fmap (ind + 2) [] (some k) :: Frame.fseq ind done :: rest)
     | none => some (Frame.fseq ind (done ++ [Yaml.str (String.mk r)]) :: rest))
  | _ => none

/-- Process one line: close dedented frames, then extend or open frames. -/
def procLine (st : List Frame) (l : YLine) : Option (List Frame) :=
  match closeTo l.ind st with
  | none => none
  | some [] => none
  | some (Frame.fmap find done pending :: rest) =>
    if l.ind = find then procMapLine find done pending l.txt rest
    else if find < l.ind then
      match pending with
      | some _ =>
        if l.txt.head? = some '-' then
          procSeqLine l.ind [] l.txt (Frame.fmap find done pending :: rest)
        else
          procMapLine l.ind [] none l.txt (Frame.fmap find done pending :: rest)
      | none => none
    else none
  | some (Frame.fseq find done :: rest) =>
    if l.ind = find then procSeqLine find done l.txt rest
    else none

/-- Run the line processor over a list of lines. -/
def runLines : List Frame → List YLine → Option (List Frame)
  | st, [] => some st
  | st, l :: ls =>
    match procLine st l with
    | none => none
    | some st2 => runLines st2 ls

/-- Worker for `closeAll`, structural on the rest of the stack. -/
def closeAllAux (f : Frame) : List Frame → Option Yaml
  | [] => some (closeFrame f)
  | g :: rest =>
    match attachVal (closeFrame f) g with
    | some g2 => closeAllAux g2 rest
    | none => none

/-- Close every remaining frame at end of input. -/
def closeAll : List Frame → Option Yaml
  | [] => none
  | f :: rest => closeAllAux f rest

/-- Modelled from the behaviour of the external `gopkg.in/yaml.v3` library
(`yaml.Unmarshal` into `map[string]interface{}`), restricted to the
block-style subset of YAML that the generators emit: an indentation-based
document of nested mappings, sequences and plain scalars.  Returns `none`
when the text is not such a mapping document. -/
def decodeYaml (s : String) : Option (List (String × Yaml)) :=
  match runLines [Frame.fmap 0 [] none] (toLines s) with
  | none => none
  | some st =>
    match closeAll st with
    | some (Yaml.ymap entries) => some entries
    | _ => none

/- ------------------------------------------------------------------ -/
/- Orchestration: Parse / Generate / Convert                           -/
/- ------------------------------------------------------------------ -/

/-- The error taxonomy of the converter.  `parseFailed` / `generateFailed`
model the `fmt.Errorf("failed to ...: %w", err)` wrappers in `Convert`. -/
inductive ConvErr
  | ioError
  | malformedInput
  | unsupportedSource (p : Platform)
  | unsupportedTarget (p : Platform)
  | parseFailed (p : Platform) (e : ConvErr)
  | generateFailed (p : Platform) (e : ConvErr)
deriving DecidableEq, Repr

/-- `parseGitHub` on raw text: decode, then project. -/
def parseGitHubText (content : String) : Except ConvErr PipelineConfig :=
  match decodeYaml content with
  | none => Except.error ConvErr.malformedInput
  | some gh => Except.ok (parseGitHubDoc gh)

/-- `parseGitLab` on raw text. -/
def parseGitLabText (content : String) : Except ConvErr PipelineConfig :=
  match decodeYaml content with
  | none => Except.error ConvErr.malformedInput
  | some gl => Except.ok (parseGitLabDoc gl)

/-- `parseCircleCI` on raw text. -/
def parseCircleCIText (content : String) : Except ConvErr PipelineConfig :=
  match decodeYaml content with
  | none => Except.error ConvErr.malformedInput
  | some ci => Except.ok (parseCircleCIDoc ci)

/-- The file system visible to `Convert`: newest write first. -/
def FS := List (String × String)

/-- `os.ReadFile`. -/
def readFile (fs : FS) (p : String) : Option String :=
  (fs.find? (fun e => e.1 = p)).map (fun e => e.2)

/-- `os.WriteFile` (create or overwrite). -/
def writeFile (fs : FS) (p content : String) : FS :=
  (p, content) :: fs

/-- `Converter.Parse`: read the input file, then dispatch on the source
platform; unknown sources yield the `unsupported source platform` error. -/
def Parse (platform : Platform) (fs : FS) (inputPath : String) :
    Except ConvErr PipelineConfig :=
  match readFile fs inputPath with
  | none => Except.error ConvErr.ioError
  | some content =>
    match platform with
    | Platform.github => parseGitHubText content
    | Platform.gitlab => parseGitLabText content
    | Platform.circleci => parseCircleCIText content
    | Platform.jenkins => Except.ok (parseJenkins content)
    | _ => Except.error (ConvErr.unsupportedSource platform)

/-- `Converter.Generate`: dispatch on the target platform. -/
def Generate (platform : Platform) (config : PipelineConfig) :
    Except ConvErr String :=
  match platform with
  | Platform.github => Except.ok (generateGitHub config)
  | Platform.gitlab => Except.ok (generateGitLab config)
  | Platform.circleci => Except.ok (generateCircleCI config)
  | Platform.azure => Except.ok (generateAzure config)
  | Platform.jenkins => Except.ok (generateJenkins config)
  | Platform.bitbucket => Except.error (ConvErr.unsupportedTarget platform)

/-- `Converter.Convert`: parse, generate, then (and only then) write the
output file.  `os.MkdirAll` is modelled as always succeeding (the directory
tree is not part of the model). -/
def Convert (fromP toP : Platform) (inputPath outputPath : String) (fs : FS) :
    Except ConvErr Unit × FS :=
  match Parse fromP fs inputPath with
  | Except.error e => (Except.error (ConvErr.parseFailed fromP e), fs)
  | Except.ok config =>
    match Generate toP config with
    | Except.error e => (Except.error (ConvErr.generateFailed toP e), fs)
    | Except.ok output => (Except.ok (), writeFile fs outputPath output)

/- ------------------------------------------------------------------ -/
/- Substring containment infrastructure                                -/
/- ------------------------------------------------------------------ -/

/-- `needle` occurs as a contiguous substring of `hay`. -/
def containsStr (hay needle : String) : Prop :=
  needle.data <:+: hay.data

instance (hay needle : String) : Decidable (containsStr hay needle) :=
  inferInstanceAs (Decidable (needle.data <:+: hay.data))

theorem containsStr_appendL (a b frag : String) (h : containsStr b frag) :
    containsStr (a ++ b) frag := by
  obtain ⟨s, t, ht⟩ := h
  exact ⟨a.data ++ s, t, by simp [String.data_append, ← ht, List.append_assoc]⟩

theorem containsStr_appendR (a b frag : String) (h : containsStr a frag) :
    containsStr (a ++ b) frag := by
  obtain ⟨s, t, ht⟩ := h
  exact ⟨s, t ++ b.data, by simp [String.data_append, ← ht, List.append_assoc]⟩

theorem containsStr_self_prefix (frag rest : String) :
    containsStr (frag ++ rest) frag :=
  ⟨[], rest.data, by simp [String.data_append]⟩

theorem containsStr_refl (s : String) : containsStr s s :=
  ⟨[], [], by simp⟩

theorem strExt {s t : String} (h : s.data = t.data) : s = t := by
  cases s; cases t; exact congrArg String.mk h

theorem containsStr_split (pre frag post : String) :
    containsStr (pre ++ frag ++ post) frag :=
  ⟨pre.data, post.data, by simp [String.data_append]⟩

theorem containsStr_joinStr {α : Type} (f : α → String) (frag : String)
    {x : α} {xs : List α} (hx : x ∈ xs) (h : containsStr (f x) frag) :
    containsStr (joinStr (xs.map f)) frag := by
  induction xs with
  | nil => cases hx
  | cons y ys ih =>
    rcases List.mem_cons.mp hx with rfl | hmem
    · exact containsStr_appendR _ _ _ h
    · exact containsStr_appendL _ _ _ (ih hmem)

/- ------------------------------------------------------------------ -/
/- Claim C4: conversion atomicity                                      -/
/- ------------------------------------------------------------------ -/

/-- C4: if the parse stage or the generate stage of `Convert` returns an
error, `Convert` returns that error (wrapped as in the source) and the file
system is unchanged — in particular no write to `outputPath` occurs. -/
theorem C4_convert_atomicity (fromP toP : Platform) (inputPath outputPath : String)
    (fs : FS) :
    (∀ e, Parse fromP fs inputPath = Except.error e →
       Convert fromP toP inputPath outputPath fs =
         (Except.error (ConvErr.parseFailed fromP e), fs)) ∧
    (∀ cfg e, Parse fromP fs inputPath = Except.ok cfg →
       Generate toP cfg = Except.error e →
       Convert fromP toP inputPath outputPath fs =
         (Except.error (ConvErr.generateFailed toP e), fs)) := by
  constructor
  · intro e he
    simp [Convert, he]
  · intro cfg e hc hg
    simp [Convert, hc, hg]

/-- Witness for C4: a failing read/parse and a failing generate, both leaving
the file system untouched. -/
theorem C4_convert_atomicity_witness :
    Convert Platform.github Platform.github "in.yml" "out.yml" [] =
      (Except.error (ConvErr.parseFailed Platform.github ConvErr.ioError), []) ∧
    Convert Platform.github Platform.bitbucket "in.yml" "out.yml"
        [("in.yml", "name: CI")] =
      (Except.error (ConvErr.generateFailed Platform.bitbucket
          (ConvErr.unsupportedTarget Platform.bitbucket)),
        [("in.yml", "name: CI")]) := by
  constructor
  · exact (C4_convert_atomicity Platform.github Platform.github "in.yml" "out.yml"
      []).1 ConvErr.ioError rfl
  · exact (C4_convert_atomicity Platform.github Platform.bitbucket "in.yml" "out.yml"
      [("in.yml", "name: CI")]).2 (parseGitHubDoc [("name", Yaml.str "CI")])
      (ConvErr.unsupportedTarget Platform.bitbucket) rfl rfl

/- ------------------------------------------------------------------ -/
/- Claim C5: parse failure modes                                       -/
/- ------------------------------------------------------------------ -/

/-- C5: parsing from Azure or Bitbucket fails with the unsupported-platform
error for every readable input, and for each platform whose parser decodes
structured text (GitHub, GitLab, CircleCI), a decode failure yields the
malformed-input error and no IR value. -/
theorem C5_parse_failure_modes :
    (∀ (fs : FS) (inputPath content : String),
       readFile fs inputPath = some content →
       Parse Platform.azure fs inputPath =
         Except.error (ConvErr.unsupportedSource Platform.azure) ∧
       Parse Platform.bitbucket fs inputPath =
         Except.error (ConvErr.unsupportedSource Platform.bitbucket)) ∧
    (∀ content : String, decodeYaml content = none →
       parseGitHubText content = Except.error ConvErr.malformedInput ∧
       parseGitLabText content = Except.error ConvErr.malformedInput ∧
       parseCircleCIText content = Except.error ConvErr.malformedInput) := by
  constructor
  · intro fs inputPath content h
    constructor <;> simp [Parse, h]
  · intro content h
    refine ⟨?_, ?_, ?_⟩ <;>
      simp [parseGitHubText, parseGitLabText, parseCircleCIText, h]

/-- Witness for C5 at concrete inputs: a readable file parsed as Azure, and
an undecodable document parsed as GitHub. -/
theorem C5_parse_failure_modes_witness :
    readFile [("ci.yml", "plain scalar")] "ci.yml" = some "plain scalar" ∧
    Parse Platform.azure [("ci.yml", "plain scalar")] "ci.yml" =
      Except.error (ConvErr.unsupportedSource Platform.azure) ∧
    decodeYaml "plain scalar" = none ∧
    parseGitHubText "plain scalar" = Except.error ConvErr.malformedInput := by
  refine ⟨rfl, ?_, rfl, ?_⟩
  · exact (C5_parse_failure_modes.1 [("ci.yml", "plain scalar")] "ci.yml"
      "plain scalar" rfl).1
  · exact (C5_parse_failure_modes.2 "plain scalar" rfl).1

/- ------------------------------------------------------------------ -/
/- Claim C8: Jenkins parser extraction                                 -/
/- ------------------------------------------------------------------ -/

/-- C8: evaluating `parseJenkins` at a Jenkinsfile containing both an
`sh \x27...\x27` line and an `sh(\x27...\x27)` line.  The `sh \x27...\x27` line is stripped
to `make build` as the claim states, but the `sh(\x27...\x27)` line keeps the
`sh(\x27` prefix (`strings.TrimPrefix(line, "sh ")` does not fire and
`strings.Trim` cannot remove the interior characters), yielding the command
`sh(\x27make send` instead of `make send`. -/
theorem C8_parseJenkins_sh_paren :
    parseJenkins
        ("pipeline \x7b\n  stages \x7b\n    stage(\x27Build\x27) \x7b\n      steps \x7b\n        sh \x27make build\x27\n        sh(\x27make send\x27)\n      \x7d\n    \x7d\n  \x7d\n\x7d\n") =
      { name := "Pipeline"
        triggers := [{ type := "push" }]
        jobs := [{ name := "build", runsOn := "ubuntu-latest",
                   steps := [{ run := "make build" }, { run := "sh(\x27make send" }] }] } ∧
    ("sh(\x27make send" : String) ≠ "make send" := by
  exact ⟨by decide, by decide⟩

/- ------------------------------------------------------------------ -/
/- Claim C6: GitHub parser needs handling                              -/
/- ------------------------------------------------------------------ -/

/-- C6 counterexample: a GitHub job whose `needs` is the singular string
`build` parses to a job with empty `dependsOn` — the singular form is not
mapped (the type assertion to a sequence fails and the field is skipped). -/
theorem C6_needs_singular_counterexample :
    (parseGitHubDoc [("jobs", Yaml.ymap [("test", Yaml.ymap
        [("runs-on", Yaml.str "ubuntu-latest"), ("needs", Yaml.str "build")])])]).jobs =
      [{ name := "test", runsOn := "ubuntu-latest" }] ∧
    ({ name := "test", runsOn := "ubuntu-latest" } : Job).dependsOn = [] := by
  exact ⟨by decide, rfl⟩

/-- C6 amended: the parser maps `needs` to `dependsOn` when it is given as a
sequence; a singular string `needs` is ignored and `dependsOn` stays empty. -/
theorem C6_needs_sequence (jobName : String) (jd : List (String × Yaml)) :
    (∀ ds : List String,
       ymlGet jd "needs" = some (Yaml.seq (ds.map Yaml.str)) →
       (parseGHJob jobName jd).dependsOn = ds) ∧
    (∀ s : String, ymlGet jd "needs" = some (Yaml.str s) →
       (parseGHJob jobName jd).dependsOn = []) := by
  constructor
  · intro ds h
    simp only [parseGHJob, h, List.map_map]
    exact List.map_congr_left (fun s _ => rfl) |>.trans (List.map_id ds)
  · intro s h
    simp [parseGHJob, h]

/-- Witness for C6 at concrete documents. -/
theorem C6_needs_sequence_witness :
    (parseGHJob "test" [("needs", Yaml.seq [Yaml.str "build"])]).dependsOn = ["build"] ∧
    (parseGHJob "test" [("needs", Yaml.str "build")]).dependsOn = [] := by
  exact ⟨(C6_needs_sequence "test" _).1 ["build"] rfl,
    (C6_needs_sequence "test" _).2 "build" rfl⟩

/- ------------------------------------------------------------------ -/
/- Claim C7: condition pass-through                                    -/
/- ------------------------------------------------------------------ -/

/-- A job with a GitHub-dialect condition, for the C7 counterexample. -/
def condJob : Job :=
  { name := "a", runsOn := "ubuntu-latest", condition := "github.ref" }

/-- A config with a GitHub-dialect condition, for the C7 counterexample. -/
def condCfg : PipelineConfig :=
  { name := "P", jobs := [condJob] }

/-- C7 counterexample: the GitLab generator does not emit the condition
verbatim — `github.` is rewritten to `$CI_` by `convertCondition`, so the
output carries `$CI_ref` and the original text `github.ref` is gone. -/
theorem C7_condition_counterexample :
    containsStr (generateGitLab condCfg) "    - if: $CI_ref\n" ∧
    ¬ containsStr (generateGitLab condCfg) "github." := by
  exact ⟨by decide, by decide⟩

/-- Erase every job condition (for stating condition-independence). -/
def scrubConditions (c : PipelineConfig) : PipelineConfig :=
  { c with jobs := c.jobs.map (fun j => { j with condition := "" }) }

/-- C7 amended: the GitHub generator emits a non-empty job condition
verbatim as the job's `if:`; the GitLab generator emits it as the single
`rules` `if:` after replacing every occurrence of `github.` with `$CI_`
(verbatim only when the condition does not mention `github.`); the CircleCI,
Azure and Jenkins generators ignore the condition entirely. -/
theorem C7_condition_passthrough (c : PipelineConfig) :
    (∀ j ∈ c.jobs, j.condition ≠ "" →
       containsStr (generateGitHub c) ("    if: " ++ j.condition ++ "\n")) ∧
    (∀ j ∈ c.jobs, j.condition ≠ "" →
       containsStr (generateGitLab c)
         ("  rules:\n" ++ "    - if: " ++ goReplaceAll "github." "$CI_" j.condition ++ "\n")) ∧
    generateCircleCI (scrubConditions c) = generateCircleCI c ∧
    generateAzure (scrubConditions c) = generateAzure c ∧
    generateJenkins (scrubConditions c) = generateJenkins c := by
  have hcc : ∀ j : Job, ccJob { j with condition := "" } = ccJob j := by
    intro j; cases j; rfl
  have hwf : ∀ j : Job, ccWorkflowEntry { j with condition := "" } = ccWorkflowEntry j := by
    intro j; cases j; rfl
  have haz : ∀ j : Job, azJob { j with condition := "" } = azJob j := by
    intro j; cases j; rfl
  have hjk : ∀ j : Job, jkStage { j with condition := "" } = jkStage j := by
    intro j; cases j; rfl
  refine ⟨?_, ?_, ?_, ?_, ?_⟩
  · intro j hj hcond
    have hfrag : containsStr (ghJob j) ("    if: " ++ j.condition ++ "\n") := by
      unfold ghJob
      apply containsStr_appendR
      apply containsStr_appendR
      apply containsStr_appendR
      apply containsStr_appendL
      simp only [hcond, if_true, ne_eq, not_false_iff, ite_true, convertCondition]
      exact containsStr_refl _
    unfold generateGitHub
    exact containsStr_appendL _ _ _ (containsStr_joinStr ghJob _ hj hfrag)
  · intro j hj hcond
    have hfrag : containsStr (glJob j)
        ("  rules:\n" ++ "    - if: " ++ goReplaceAll "github." "$CI_" j.condition ++ "\n") := by
      unfold glJob
      apply containsStr_appendR
      apply containsStr_appendR
      apply containsStr_appendR
      apply containsStr_appendL
      simp only [hcond, if_true, ne_eq, not_false_iff, ite_true, convertCondition]
      exact containsStr_refl _
    unfold generateGitLab
    exact containsStr_appendL _ _ _ (containsStr_joinStr glJob _ hj hfrag)
  · simp only [generateCircleCI, scrubConditions, List.map_map, Function.comp_def]
    rw [List.map_congr_left (fun j _ => hcc j), List.map_congr_left (fun j _ => hwf j)]
  · simp only [generateAzure, scrubConditions, List.map_map, Function.comp_def]
    rw [List.map_congr_left (fun j _ => haz j)]
  · simp only [generateJenkins, scrubConditions, List.map_map, Function.comp_def]
    rw [List.map_congr_left (fun j _ => hjk j)]

/-- Witness for C7 at a concrete config. -/
theorem C7_condition_passthrough_witness :
    containsStr (generateGitHub condCfg) ("    if: " ++ "github.ref" ++ "\n") ∧
    generateJenkins (scrubConditions condCfg) = generateJenkins condCfg := by
  refine ⟨?_, ?_⟩
  · exact (C7_condition_passthrough condCfg).1 condJob (by decide) (by decide)
  · exact (C7_condition_passthrough condCfg).2.2.2.2

/- ------------------------------------------------------------------ -/
/- Claim C2: dependency fidelity                                       -/
/- ------------------------------------------------------------------ -/

/-- Job `alpha`, depended upon by `beta` (C2 fixtures). -/
def depJobA : Job := { name := "alpha", runsOn := "ubuntu-latest" }

/-- Job `beta`, declaring `dependsOn = [alpha]` (C2 fixtures). -/
def depJobB : Job := { name := "beta", runsOn := "ubuntu-latest", dependsOn := ["alpha"] }

/-- Two-job config with one dependency edge. -/
def depCfg : PipelineConfig := { name := "P", jobs := [depJobA, depJobB] }

/-- The same config with the dependency edge removed. -/
def depCfgNoDep : PipelineConfig :=
  { name := "P", jobs := [depJobA, { depJobB with dependsOn := [] }] }

/-- C2 counterexample: the Jenkins generator emits no dependency equivalent
at all — its output on a config where `beta` depends on `alpha` is exactly
this dependency-free text, and is unchanged when the dependency is removed. -/
theorem C2_jenkins_counterexample :
    generateJenkins depCfg =
      "pipeline \x7b\n    agent any\n\n    stages \x7b\n        stage(\x27alpha\x27) \x7b\n            steps \x7b\n            \x7d\n        \x7d\n        stage(\x27beta\x27) \x7b\n            steps \x7b\n            \x7d\n        \x7d\n    \x7d\n\x7d\n" ∧
    generateJenkins depCfg = generateJenkins depCfgNoDep := by
  exact ⟨by decide, by decide⟩

/-- C2 amended: when job `B` declares `dependsOn = [A]`, each of the four
YAML generators (GitHub, GitLab, CircleCI, Azure) emits, inside `B`'s output
block, the platform's dependency equivalent (`needs` / `requires` /
`dependsOn`) listing exactly `A`; the Jenkins generator emits no dependency
information. -/
theorem C2_dependency_fidelity (c : PipelineConfig) (A : String) (B : Job)
    (hB : B ∈ c.jobs) (hdep : B.dependsOn = [A]) :
    containsStr (generateGitHub c)
      ("  " ++ sanitizeName B.name ++ ":\n" ++ "    runs-on: " ++ B.runsOn ++ "\n" ++
       "    needs:\n" ++ "      - " ++ A ++ "\n") ∧
    containsStr (generateGitLab c)
      (sanitizeName B.name ++ ":\n" ++ "  stage: " ++ sanitizeName B.name ++ "\n" ++
       "  needs:\n" ++ "    - " ++ A ++ "\n") ∧
    containsStr (generateCircleCI c)
      ("      - " ++ sanitizeName B.name ++ ":\n" ++ "          requires:\n" ++
       "            - " ++ A ++ "\n") ∧
    containsStr (generateAzure c)
      ("  - stage: " ++ sanitizeName B.name ++ "\n" ++ "    jobs:\n" ++
       "      - job: " ++ sanitizeName B.name ++ "\n" ++ "        dependsOn:\n" ++
       "          - " ++ A ++ "\n") := by
  refine ⟨?_, ?_, ?_, ?_⟩
  · have he : ghJob B =
        ("  " ++ sanitizeName B.name ++ ":\n" ++ "    runs-on: " ++ B.runsOn ++ "\n" ++
         "    needs:\n" ++ "      - " ++ A ++ "\n") ++
        ((if B.condition ≠ "" then
            "    if: " ++ convertCondition B.condition Platform.github ++ "\n" else "") ++
         "    steps:\n" ++
         (if ghHasCheckout B.steps then "" else "      - uses: actions/checkout@v4\n") ++
         joinStr (List.map ghStep B.steps)) := by
      apply strExt
      simp [ghJob, hdep, joinStr, String.data_append, List.append_assoc]
    have hj : containsStr (ghJob B)
        ("  " ++ sanitizeName B.name ++ ":\n" ++ "    runs-on: " ++ B.runsOn ++ "\n" ++
         "    needs:\n" ++ "      - " ++ A ++ "\n") := by
      rw [he]; exact containsStr_self_prefix _ _
    unfold generateGitHub
    exact containsStr_appendL _ _ _ (containsStr_joinStr ghJob _ hB hj)
  · have he : glJob B =
        (sanitizeName B.name ++ ":\n" ++ "  stage: " ++ sanitizeName B.name ++ "\n" ++
         "  needs:\n" ++ "    - " ++ A ++ "\n") ++
        ((if B.condition ≠ "" then
            "  rules:\n" ++ "    - if: " ++ convertCondition B.condition Platform.gitlab ++ "\n"
          else "") ++
         "  script:\n" ++ joinStr (List.map glStep B.steps) ++ "\n") := by
      apply strExt
      simp [glJob, hdep, joinStr, String.data_append, List.append_assoc]
    have hj : containsStr (glJob B)
        (sanitizeName B.name ++ ":\n" ++ "  stage: " ++ sanitizeName B.name ++ "\n" ++
         "  needs:\n" ++ "    - " ++ A ++ "\n") := by
      rw [he]; exact containsStr_self_prefix _ _
    unfold generateGitLab
    exact containsStr_appendL _ _ _ (containsStr_joinStr glJob _ hB hj)
  · have he : ccWorkflowEntry B =
        "      - " ++ sanitizeName B.name ++ ":\n" ++ "          requires:\n" ++
          "            - " ++ A ++ "\n" := by
      apply strExt
      simp [ccWorkflowEntry, hdep, joinStr, String.data_append, List.append_assoc]
    have hj : containsStr (ccWorkflowEntry B)
        ("      - " ++ sanitizeName B.name ++ ":\n" ++ "          requires:\n" ++
         "            - " ++ A ++ "\n") := by
      rw [he]; exact containsStr_refl _
    unfold generateCircleCI
    exact containsStr_appendL _ _ _ (containsStr_joinStr ccWorkflowEntry _ hB hj)
  · have he : azJob B =
        ("  - stage: " ++ sanitizeName B.name ++ "\n" ++ "    jobs:\n" ++
         "      - job: " ++ sanitizeName B.name ++ "\n" ++ "        dependsOn:\n" ++
         "          - " ++ A ++ "\n") ++
        ("        steps:\n" ++ "          - checkout: self\n" ++
         joinStr (List.map azStep B.steps)) := by
      apply strExt
      simp [azJob, hdep, joinStr, String.data_append, List.append_assoc]
    have hj : containsStr (azJob B)
        ("  - stage: " ++ sanitizeName B.name ++ "\n" ++ "    jobs:\n" ++
         "      - job: " ++ sanitizeName B.name ++ "\n" ++ "        dependsOn:\n" ++
         "          - " ++ A ++ "\n") := by
      rw [he]; exact containsStr_self_prefix _ _
    unfold generateAzure
    exact containsStr_appendL _ _ _ (containsStr_joinStr azJob _ hB hj)

/-- Witness for C2 at the concrete two-job config. -/
theorem C2_dependency_fidelity_witness :
    containsStr (generateGitHub depCfg)
      ("  " ++ sanitizeName depJobB.name ++ ":\n" ++ "    runs-on: " ++ depJobB.runsOn ++
       "\n" ++ "    needs:\n" ++ "      - " ++ "alpha" ++ "\n") ∧
    containsStr (generateGitLab depCfg)
      (sanitizeName depJobB.name ++ ":\n" ++ "  stage: " ++ sanitizeName depJobB.name ++
       "\n" ++ "  needs:\n" ++ "    - " ++ "alpha" ++ "\n") ∧
    containsStr (generateCircleCI depCfg)
      ("      - " ++ sanitizeName depJobB.name ++ ":\n" ++ "          requires:\n" ++
       "            - " ++ "alpha" ++ "\n") ∧
    containsStr (generateAzure depCfg)
      ("  - stage: " ++ sanitizeName depJobB.name ++ "\n" ++ "    jobs:\n" ++
       "      - job: " ++ sanitizeName depJobB.name ++ "\n" ++ "        dependsOn:\n" ++
       "          - " ++ "alpha" ++ "\n") := by
  exact C2_dependency_fidelity depCfg "alpha" depJobB (by decide) rfl

/- ------------------------------------------------------------------ -/
/- Claim C10: sanitized keys vs verbatim dependency references         -/
/- ------------------------------------------------------------------ -/

theorem goReplF_single (a b : Char) :
    ∀ (l : List Char) (f : Nat), l.length ≤ f →
      goReplF [a] [b] f l = l.map (fun c => if c = a then b else c) := by
  intro l
  induction l with
  | nil => intro f _; cases f <;> rfl
  | cons c cs ih =>
    intro f hf
    cases f with
    | zero => simp at hf
    | succ f =>
      by_cases hac : a = c
      · subst hac
        simp [goReplF, List.isPrefixOf, ih f (by simpa using hf)]
      · simp [goReplF, List.isPrefixOf, hac, Ne.symm hac, ih f (by simpa using hf)]

/-- Character-level description of `sanitizeName`. -/
theorem sanitizeName_data (name : String) :
    (sanitizeName name).data = name.data.map
      (fun c => Char.toLower
        (if (if c = ' ' then '-' else c) = '_' then '-' else (if c = ' ' then '-' else c))) := by
  unfold sanitizeName strToLower goReplaceAll
  rw [goReplF_single ' ' '-' name.data name.data.length (Nat.le_refl _)]
  rw [show ((String.mk (name.data.map (fun c => if c = ' ' then '-' else c))).data =
      name.data.map (fun c => if c = ' ' then '-' else c)) from rfl]
  rw [goReplF_single '_' '-' _ _ (by simp)]
  simp [List.map_map, Function.comp_def]

theorem map_eq_self_mem {α : Type} {f : α → α} :
    ∀ {l : List α}, List.map f l = l → ∀ x ∈ l, f x = x := by
  intro l
  induction l with
  | nil => intro _ x hx; cases hx
  | cons a as ih =>
    intro h x hx
    rw [List.map_cons] at h
    injection h with h1 h2
    rcases List.mem_cons.mp hx with rfl | hxs
    · exact h1
    · exact ih h2 x hxs

theorem toNat_ofNat_valid (m : Nat) (h : m.isValidChar) :
    (Char.ofNat m).toNat = m := by
  unfold Char.ofNat
  rw [dif_pos h]
  rfl

theorem toLower_ne_of_upper {c : Char} (h1 : 65 ≤ c.toNat) (h2 : c.toNat ≤ 90) :
    Char.toLower c ≠ c := by
  have hval : (Char.toLower c).toNat = c.toNat + 32 := by
    simp only [Char.toLower]
    rw [if_pos ⟨h1, h2⟩]
    exact toNat_ofNat_valid _ (Or.inl (by omega))
  intro heq
  rw [heq] at hval
  omega

/-- C10: generators emit sanitized job keys but verbatim `dependsOn`
entries.  If job `JA`'s name contains an ASCII uppercase letter, a space or
an underscore, and job `JB` depends on it by name, then the emitted
dependency reference (present verbatim in the output) differs from the
emitted key of the referenced job, for both the GitHub and GitLab
generators. -/
theorem C10_sanitized_keys_vs_verbatim_deps (c : PipelineConfig) (JA JB : Job)
    (hA : JA ∈ c.jobs) (hB : JB ∈ c.jobs) (hdep : JA.name ∈ JB.dependsOn)
    (hbad : ∃ ch ∈ JA.name.data, (65 ≤ ch.toNat ∧ ch.toNat ≤ 90) ∨ ch = ' ' ∨ ch = '_') :
    sanitizeName JA.name ≠ JA.name ∧
    containsStr (generateGitHub c) ("      - " ++ JA.name ++ "\n") ∧
    containsStr (generateGitHub c) ("  " ++ sanitizeName JA.name ++ ":\n") ∧
    containsStr (generateGitLab c) ("    - " ++ JA.name ++ "\n") ∧
    containsStr (generateGitLab c)
      (sanitizeName JA.name ++ ":\n" ++ "  stage: " ++ sanitizeName JA.name ++ "\n") := by
  have hne : JB.dependsOn ≠ [] := by
    intro h
    rw [h] at hdep
    cases hdep
  refine ⟨?_, ?_, ?_, ?_, ?_⟩
  · intro heq
    obtain ⟨ch, hchmem, hcase⟩ := hbad
    have hd := congrArg String.data heq
    rw [sanitizeName_data] at hd
    have hfix := map_eq_self_mem hd ch hchmem
    rcases hcase with ⟨hup1, hup2⟩ | hsp | hun
    · have hne1 : ch ≠ ' ' := by
        intro h; subst h
        have : Char.toNat ' ' = 32 := rfl
        omega
      have hne2 : ch ≠ '_' := by
        intro h; subst h
        have : Char.toNat '_' = 95 := rfl
        omega
      simp only [hne1, hne2, if_false, ite_false] at hfix
      exact toLower_ne_of_upper hup1 hup2 hfix
    · subst hsp
      exact absurd hfix (by decide)
    · subst hun
      exact absurd hfix (by decide)
  · have hfrag : containsStr (ghJob JB) ("      - " ++ JA.name ++ "\n") := by
      unfold ghJob
      apply containsStr_appendR
      apply containsStr_appendR
      apply containsStr_appendR
      apply containsStr_appendR
      apply containsStr_appendL
      rw [if_pos hne]
      apply containsStr_appendL
      exact containsStr_joinStr (fun d => "      - " ++ d ++ "\n") _ hdep (containsStr_refl _)
    unfold generateGitHub
    exact containsStr_appendL _ _ _ (containsStr_joinStr ghJob _ hB hfrag)
  · have hfrag : containsStr (ghJob JA) ("  " ++ sanitizeName JA.name ++ ":\n") := by
      unfold ghJob
      apply containsStr_appendR
      apply containsStr_appendR
      apply containsStr_appendR
      apply containsStr_appendR
      apply containsStr_appendR
      apply containsStr_appendR
      apply containsStr_appendR
      apply containsStr_appendR
      exact containsStr_refl _
    unfold generateGitHub
    exact containsStr_appendL _ _ _ (containsStr_joinStr ghJob _ hA hfrag)
  · have hfrag : containsStr (glJob JB) ("    - " ++ JA.name ++ "\n") := by
      unfold glJob
      apply containsStr_appendR
      apply containsStr_appendR
      apply containsStr_appendR
      apply containsStr_appendR
      apply containsStr_appendL
      rw [if_pos hne]
      apply containsStr_appendL
      exact containsStr_joinStr (fun d => "    - " ++ d ++ "\n") _ hdep (containsStr_refl _)
    unfold generateGitLab
    exact containsStr_appendL _ _ _ (containsStr_joinStr glJob _ hB hfrag)
  · have hfrag : containsStr (glJob JA)
        (sanitizeName JA.name ++ ":\n" ++ "  stage: " ++ sanitizeName JA.name ++ "\n") := by
      unfold glJob
      apply containsStr_appendR
      apply containsStr_appendR
      apply containsStr_appendR
      apply containsStr_appendR
      apply containsStr_appendR
      exact containsStr_refl _
    unfold generateGitLab
    exact containsStr_appendL _ _ _ (containsStr_joinStr glJob _ hA hfrag)

/-- Jobs with an underscore name and a dependent, for the C10 witness. -/
def c10Cfg : PipelineConfig :=
  { name := "P"
    jobs := [{ name := "unit_tests", runsOn := "ubuntu-latest" },
             { name := "deploy", runsOn := "ubuntu-latest", dependsOn := ["unit_tests"] }] }

/-- Witness for C10 at a concrete config with an underscore in a job name. -/
theorem C10_sanitized_keys_vs_verbatim_deps_witness :
    sanitizeName "unit_tests" ≠ "unit_tests" ∧
    containsStr (generateGitHub c10Cfg) ("      - " ++ "unit_tests" ++ "\n") ∧
    containsStr (generateGitHub c10Cfg) ("  " ++ sanitizeName "unit_tests" ++ ":\n") ∧
    containsStr (generateGitLab c10Cfg) ("    - " ++ "unit_tests" ++ "\n") ∧
    containsStr (generateGitLab c10Cfg)
      (sanitizeName "unit_tests" ++ ":\n" ++ "  stage: " ++ sanitizeName "unit_tests" ++ "\n") := by
  exact C10_sanitized_keys_vs_verbatim_deps c10Cfg
    { name := "unit_tests", runsOn := "ubuntu-latest" }
    { name := "deploy", runsOn := "ubuntu-latest", dependsOn := ["unit_tests"] }
    (by decide) (by decide) (by decide) ⟨'_', by decide, by decide⟩

/- ------------------------------------------------------------------ -/
/- Claim C9: CircleCI docker image and the GitHub runs-on              -/
/- ------------------------------------------------------------------ -/

/-- The job body of the CircleCI scenario document (C9 fixture). -/
def c9jd : List (String × Yaml) :=
  [("docker", Yaml.seq [Yaml.ymap [("image", Yaml.str "cimg/node:18.0")]]),
   ("steps", Yaml.seq [Yaml.str "checkout"])]

/-- The decoded CircleCI scenario document (C9 fixture). -/
def c9doc : List (String × Yaml) :=
  [("version", Yaml.str "2.1"), ("jobs", Yaml.ymap [("build", Yaml.ymap c9jd)])]

/-- C9 counterexample: converting the CircleCI config with docker image
`cimg/node:18.0` to GitHub succeeds, but the generated job's `runs-on` line
carries the container image verbatim — the image is neither discarded nor
moved into a comment. -/
theorem C9_counterexample :
    Generate Platform.github (parseCircleCIDoc c9doc) =
      Except.ok (generateGitHub (parseCircleCIDoc c9doc)) ∧
    containsStr (generateGitHub (parseCircleCIDoc c9doc))
      "    runs-on: cimg/node:18.0\n" := by
  exact ⟨rfl, by decide⟩

/-- C9 amended: for any decoded CircleCI document whose job declares a
docker executor image, converting to GitHub produces output without error
and the generated job's `runs-on` value is exactly that container image,
emitted verbatim. -/
theorem C9_image_to_runs_on (ci jm jd dm : List (String × Yaml))
    (jobName img : String) (ds : List Yaml)
    (h1 : ymlGet ci "jobs" = some (Yaml.ymap jm))
    (h2 : (jobName, Yaml.ymap jd) ∈ jm)
    (h3 : ymlGet jd "docker" = some (Yaml.seq (Yaml.ymap dm :: ds)))
    (h4 : ymlGet dm "image" = some (Yaml.str img)) :
    Generate Platform.github (parseCircleCIDoc ci) =
      Except.ok (generateGitHub (parseCircleCIDoc ci)) ∧
    containsStr (generateGitHub (parseCircleCIDoc ci))
      ("    runs-on: " ++ img ++ "\n") := by
  refine ⟨rfl, ?_⟩
  have hjob : parseCCJob jobName jd ∈ (parseCircleCIDoc ci).jobs := by
    simp only [parseCircleCIDoc, h1]
    exact List.mem_filterMap.mpr ⟨(jobName, Yaml.ymap jd), h2, rfl⟩
  have hruns : (parseCCJob jobName jd).runsOn = img := by
    simp [parseCCJob, h3, h4]
  have hfrag : containsStr (ghJob (parseCCJob jobName jd))
      ("    runs-on: " ++ img ++ "\n") := by
    have he : ghJob (parseCCJob jobName jd) =
        ("  " ++ sanitizeName (parseCCJob jobName jd).name ++ ":\n") ++
        ("    runs-on: " ++ img ++ "\n") ++
        ((if (parseCCJob jobName jd).dependsOn ≠ [] then
            "    needs:\n" ++ joinStr ((parseCCJob jobName jd).dependsOn.map
              (fun d => "      - " ++ d ++ "\n"))
          else "") ++
         (if (parseCCJob jobName jd).condition ≠ "" then
            "    if: " ++ convertCondition (parseCCJob jobName jd).condition
              Platform.github ++ "\n"
          else "") ++
         "    steps:\n" ++
         (if ghHasCheckout (parseCCJob jobName jd).steps then ""
          else "      - uses: actions/checkout@v4\n") ++
         joinStr (List.map ghStep (parseCCJob jobName jd).steps)) := by
      apply strExt
      simp [ghJob, hruns, String.data_append, List.append_assoc]
    rw [he]
    exact containsStr_split _ _ _
  unfold generateGitHub
  exact containsStr_appendL _ _ _ (containsStr_joinStr ghJob _ hjob hfrag)

/-- Witness for C9 at the concrete scenario document. -/
theorem C9_image_to_runs_on_witness :
    Generate Platform.github (parseCircleCIDoc c9doc) =
      Except.ok (generateGitHub (parseCircleCIDoc c9doc)) ∧
    containsStr (generateGitHub (parseCircleCIDoc c9doc))
      ("    runs-on: " ++ "cimg/node:18.0" ++ "\n") := by
  exact C9_image_to_runs_on c9doc [("build", Yaml.ymap c9jd)] c9jd
    [("image", Yaml.str "cimg/node:18.0")] "build" "cimg/node:18.0" []
    rfl (List.Mem.head _) rfl rfl

/- ------------------------------------------------------------------ -/
/- Round-trip infrastructure (claims C1 and C3)                        -/
/- ------------------------------------------------------------------ -/

/-- Characters that keep a scalar plain in the emitted YAML (no `:`board,
no quotes, no comment or indicator characters, no newlines). -/
def plainChar (c : Char) : Bool :=
  c.isAlphanum || c = '-' || c = '_' || c = '.' || c = '/' || c = '@' ||
  c = '$' || c = '=' || c = '+' || c = ' ' || c = '(' || c = ')' ||
  c = '!' || c = '<' || c = '>' || c = '&' || c = '*'

/-- A string that round-trips as a plain YAML scalar: non-empty, starts with
a letter, contains only `plainChar`s, does not end with a space, and is not
a word that YAML resolves to a boolean or null. -/
def plainScalar (s : String) : Bool :=
  (match s.data with
   | [] => false
   | c :: _ => c.isAlpha) &&
  s.data.all plainChar &&
  (match s.data.getLast? with
   | some c => c != ' '
   | none => false) &&
  !(["true", "false", "null", "yes", "no", "on", "off", "y", "n"].contains (strToLower s))

/-- Empty or plain. -/
def plainOpt (s : String) : Bool :=
  s == "" || plainScalar s

/-- A step within the GitHub-representable round-trip class: exactly one of
`uses`/`run` is populated, all strings are plain scalars, `with` keys are
distinct, and the fields the GitHub generator never emits are empty. -/
def safeStep (s : Step) : Bool :=
  plainOpt s.name &&
  ((!(s.uses == "") && s.run == "" && plainScalar s.uses &&
      s.withArgs.all (fun kv => plainScalar kv.1 && plainScalar kv.2) &&
      decide ((s.withArgs.map Prod.fst).Nodup)) ||
   (s.uses == "" && !(s.run == "") && plainScalar s.run && s.withArgs == [])) &&
  plainOpt s.ifCond &&
  s.env == [] && s.workDir == ""

/-- A job within the round-trip class. -/
def safeJob (j : Job) : Bool :=
  plainScalar (sanitizeName j.name) &&
  plainScalar j.runsOn &&
  j.dependsOn.all plainScalar &&
  plainOpt j.condition &&
  j.environment == [] && j.services == [] && j.artifacts == [] && j.cache == [] &&
  j.steps.all safeStep

/-- A trigger within the round-trip class: push or pull_request with a
non-empty branch list of plain scalars and no paths/cron. -/
def safeTrigger (t : Trigger) : Bool :=
  (t.type == "push" || t.type == "pull_request") &&
  !(t.branches == []) && t.branches.all plainScalar &&
  t.paths == [] && t.cron == ""

/-- At most one push and one pull_request trigger, push first (the order
the parser reconstructs). -/
def triggerShapeOK : List Trigger → Bool
  | [] => true
  | [_] => true
  | [t1, t2] => t1.type == "push" && t2.type == "pull_request"
  | _ => false

/-- A config within the GitHub round-trip class. -/
def safeCfg (c : PipelineConfig) : Bool :=
  plainOpt c.name &&
  c.environment == [] &&
  c.triggers.all safeTrigger &&
  triggerShapeOK c.triggers &&
  c.jobs.all safeJob &&
  decide ((c.jobs.map (fun j => sanitizeName j.name)).Nodup)

/-- The decoded form of the injected checkout step. -/
def checkoutYaml : Yaml := Yaml.ymap [("uses", Yaml.str "actions/checkout@v4")]

/-- The IR form of a re-parsed injected checkout step. -/
def checkoutStep : Step := { uses := "actions/checkout@v4" }

/-- Decoded document value of one emitted step. -/
def ghStepYaml (s : Step) : Yaml :=
  Yaml.ymap
    ((if s.name ≠ "" then [("name", Yaml.str s.name)] else []) ++
     (if s.uses ≠ "" then
        ("uses", Yaml.str s.uses) ::
          (if s.withArgs ≠ [] then
            [("with", Yaml.ymap (s.withArgs.map (fun kv => (kv.1, Yaml.str kv.2))))]
          else [])
      else [("run", Yaml.str s.run)]) ++
     (if s.ifCond ≠ "" then [("if", Yaml.str s.ifCond)] else []))

/-- Decoded document value of one emitted job. -/
def ghJobYaml (j : Job) : Yaml :=
  Yaml.ymap
    (("runs-on", Yaml.str j.runsOn) ::
     ((if j.dependsOn ≠ [] then [("needs", Yaml.seq (j.dependsOn.map Yaml.str))] else []) ++
      (if j.condition ≠ "" then
        [("if", Yaml.str (convertCondition j.condition Platform.github))] else []) ++
      [("steps", Yaml.seq
        ((if ghHasCheckout j.steps then [] else [checkoutYaml]) ++ j.steps.map ghStepYaml))]))

/-- Decoded document entry of one emitted trigger. -/
def ghTriggerDoc (t : Trigger) : String × Yaml :=
  (t.type, Yaml.ymap [("branches", Yaml.seq (t.branches.map Yaml.str))])

/-- The decoded document of `generateGitHub c`, for safe `c`. -/
def ghDocOf (c : PipelineConfig) : List (String × Yaml) :=
  [("name", Yaml.str c.name),
   ("on", if c.triggers = [] then Yaml.null
    else Yaml.ymap (c.triggers.map ghTriggerDoc)),
   ("jobs", if c.jobs = [] then Yaml.null
    else Yaml.ymap (c.jobs.map (fun j => (sanitizeName j.name, ghJobYaml j))))]

/-- The step produced by re-parsing an emitted step. -/
def rtStep (s : Step) : Step :=
  { name := s.name, uses := s.uses, run := s.run, withArgs := s.withArgs, ifCond := s.ifCond }

/-- The job produced by re-parsing an emitted job. -/
def rtJob (j : Job) : Job :=
  { name := sanitizeName j.name
    runsOn := j.runsOn
    dependsOn := j.dependsOn
    steps := (if ghHasCheckout j.steps then [] else [checkoutStep]) ++ j.steps.map rtStep }

/-- The trigger produced by re-parsing an emitted trigger. -/
def rtTrigger (t : Trigger) : Trigger :=
  { type := t.type, branches := t.branches }

/-- The config produced by re-parsing `generateGitHub c`, for safe `c`. -/
def rtConfig (c : PipelineConfig) : PipelineConfig :=
  { name := c.name
    triggers := c.triggers.map rtTrigger
    jobs := c.jobs.map rtJob }

/-- The emitted lines of one step (valid when `uses` or `run` is set). -/
def ghStepLines (s : Step) : List String :=
  (if s.name ≠ "" then
    ("      - name: " ++ s.name) ::
    (if s.uses ≠ "" then
      ("        uses: " ++ s.uses) ::
      (if s.withArgs ≠ [] then
        "        with:" :: s.withArgs.map (fun kv => "          " ++ kv.1 ++ ": " ++ kv.2)
      else [])
    else if s.run ≠ "" then ["        run: " ++ s.run] else [])
  else
    (if s.uses ≠ "" then
      ("      - uses: " ++ s.uses) ::
      (if s.withArgs ≠ [] then
        "        with:" :: s.withArgs.map (fun kv => "          " ++ kv.1 ++ ": " ++ kv.2)
      else [])
    else if s.run ≠ "" then ["      - run: " ++ s.run] else [])) ++
  (if s.ifCond ≠ "" then ["        if: " ++ s.ifCond] else [])

/-- The emitted lines of one trigger. -/
def ghTriggerLines (t : Trigger) : List String :=
  if t.type = "push" then
    "  push:" ::
      (if t.branches ≠ [] then
        "    branches:" :: t.branches.map (fun b => "      - " ++ b)
      else [])
  else if t.type = "pull_request" then
    "  pull_request:" ::
      (if t.branches ≠ [] then
        "    branches:" :: t.branches.map (fun b => "      - " ++ b)
      else [])
  else if t.type = "schedule" then
    ["  schedule:", "    - cron: \x27" ++ t.cron ++ "\x27"]
  else []

/-- The emitted lines of one job. -/
def ghJobLines (j : Job) : List String :=
  ("  " ++ sanitizeName j.name ++ ":") ::
  ("    runs-on: " ++ j.runsOn) ::
  ((if j.dependsOn ≠ [] then
      "    needs:" :: j.dependsOn.map (fun d => "      - " ++ d)
    else []) ++
   (if j.condition ≠ "" then
      ["    if: " ++ convertCondition j.condition Platform.github]
    else []) ++
   ("    steps:" ::
    ((if ghHasCheckout j.steps then [] else ["      - uses: actions/checkout@v4"]) ++
     (j.steps.map ghStepLines).flatten)))

/-- The emitted lines of the whole document. -/
def ghDocLines (c : PipelineConfig) : List String :=
  ("name: " ++ c.name) :: "" :: "on:" ::
  ((c.triggers.map ghTriggerLines).flatten ++
   ("" :: "jobs:" :: (c.jobs.map ghJobLines).flatten))

/-- Join lines back into text, one trailing newline per line. -/
def nlConcat (ls : List String) : String :=
  joinStr (ls.map (fun l => l ++ "\n"))

theorem joinStr_append (a b : List String) :
    joinStr (a ++ b) = joinStr a ++ joinStr b := by
  induction a with
  | nil => simp [joinStr]
  | cons s ss ih => simp [joinStr, ih, String.append_assoc]

theorem nlConcat_append (a b : List String) :
    nlConcat (a ++ b) = nlConcat a ++ nlConcat b := by
  simp [nlConcat, joinStr_append]

theorem nlConcat_map_pre (pre : String) (xs : List String) :
    nlConcat (xs.map (fun x => pre ++ x)) = joinStr (xs.map (fun x => pre ++ x ++ "\n")) := by
  simp [nlConcat, List.map_map, Function.comp_def]

theorem ghStep_lines (s : Step) (h : s.uses ≠ "" ∨ s.run ≠ "") :
    ghStep s = nlConcat (ghStepLines s) := by
  apply strExt
  by_cases hn : s.name = "" <;> by_cases hu : s.uses = "" <;> by_cases hr : s.run = "" <;>
    by_cases hw : s.withArgs = [] <;> by_cases hi : s.ifCond = "" <;>
    simp_all [ghStep, ghStepLines, nlConcat, nlConcat_append, joinStr, joinStr_append,
      List.map_map, Function.comp_def, String.data_append, List.append_assoc]

theorem ghTrigger_lines (t : Trigger) :
    ghTrigger t = nlConcat (ghTriggerLines t) := by
  apply strExt
  by_cases hp : t.type = "push" <;> by_cases hq : t.type = "pull_request" <;>
    by_cases hs : t.type = "schedule" <;> by_cases hb : t.branches = [] <;>
    simp_all [ghTrigger, ghTriggerLines, nlConcat, nlConcat_append, joinStr, joinStr_append,
      List.map_map, Function.comp_def, String.data_append, List.append_assoc]

theorem ghSteps_concat (ss : List Step) (h : ∀ s ∈ ss, s.uses ≠ "" ∨ s.run ≠ "") :
    joinStr (ss.map ghStep) = nlConcat ((ss.map ghStepLines).flatten) := by
  induction ss with
  | nil => rfl
  | cons s rest ih =>
    simp only [List.map_cons, List.flatten_cons, joinStr, nlConcat_append]
    rw [ghStep_lines s (h s (List.mem_cons_self s rest)),
      ih (fun x hx => h x (List.mem_cons_of_mem s hx))]

theorem ghTriggers_concat (ts : List Trigger) :
    joinStr (ts.map ghTrigger) = nlConcat ((ts.map ghTriggerLines).flatten) := by
  induction ts with
  | nil => rfl
  | cons t rest ih =>
    simp only [List.map_cons, List.flatten_cons, joinStr, nlConcat_append]
    rw [ghTrigger_lines t, ih]

theorem ghJob_lines (j : Job) (h : ∀ s ∈ j.steps, s.uses ≠ "" ∨ s.run ≠ "") :
    ghJob j = nlConcat (ghJobLines j) := by
  have hst := ghSteps_concat j.steps h
  apply strExt
  by_cases hd : j.dependsOn = [] <;> by_cases hc : j.condition = "" <;>
    by_cases hk : ghHasCheckout j.steps <;>
    simp_all [ghJob, ghJobLines, nlConcat_append, nlConcat, joinStr, joinStr_append,
      List.map_map, Function.comp_def, String.data_append, List.append_assoc]

theorem ghJobs_concat (js : List Job)
    (h : ∀ j ∈ js, ∀ s ∈ j.steps, s.uses ≠ "" ∨ s.run ≠ "") :
    joinStr (js.map ghJob) = nlConcat ((js.map ghJobLines).flatten) := by
  induction js with
  | nil => rfl
  | cons j rest ih =>
    simp only [List.map_cons, List.flatten_cons, joinStr, nlConcat_append]
    rw [ghJob_lines j (h j (List.mem_cons_self j rest)),
      ih (fun x hx => h x (List.mem_cons_of_mem j hx))]

theorem generateGitHub_lines (c : PipelineConfig)
    (h : ∀ j ∈ c.jobs, ∀ s ∈ j.steps, s.uses ≠ "" ∨ s.run ≠ "") :
    generateGitHub c = nlConcat (ghDocLines c) := by
  have htr := ghTriggers_concat c.triggers
  have hjb := ghJobs_concat c.jobs h
  apply strExt
  simp [generateGitHub, ghDocLines, nlConcat_append, nlConcat, joinStr, joinStr_append,
    htr, hjb, List.map_map, Function.comp_def, String.data_append, List.append_assoc]

theorem splitNl_append (l rest : List Char) (h : '\n' ∉ l) :
    splitNl (l ++ '\n' :: rest) = l :: splitNl rest := by
  induction l with
  | nil => simp [splitNl]
  | cons c cs ih =>
    have hc : c ≠ '\n' := by
      intro he
      exact h (he ▸ List.mem_cons_self c cs)
    have hcs : '\n' ∉ cs := fun hm => h (List.mem_cons_of_mem c hm)
    have ihh := ih hcs
    simp [splitNl, hc, ihh]

theorem toLines_nlConcat (ls : List String) (h : ∀ l ∈ ls, '\n' ∉ l.data) :
    toLines (nlConcat ls) = ls.filterMap (fun l => ylOf l.data) := by
  induction ls with
  | nil => rfl
  | cons l rest ih =>
    have h1 : '\n' ∉ l.data := h l (List.mem_cons_self _ _)
    have h2 : ∀ x ∈ rest, '\n' ∉ x.data := fun x hx => h x (List.mem_cons_of_mem _ hx)
    show (splitNl (nlConcat (l :: rest)).data).filterMap ylOf = _
    have hd : (nlConcat (l :: rest)).data = l.data ++ '\n' :: (nlConcat rest).data := by
      show ((l ++ "\n") ++ nlConcat rest).data = _
      simp [String.data_append]
    have ht : List.filterMap ylOf (splitNl (nlConcat rest).data) =
        rest.filterMap (fun x => ylOf x.data) := ih h2
    rw [hd, splitNl_append _ _ h1]
    cases hc : ylOf l.data <;> simp [List.filterMap_cons, hc, ht]

theorem ylOf_indented (k : Nat) (d v : List Char) (hne : d ≠ [])
    (hh : d.head? ≠ some ' ') :
    ylOf (List.replicate k ' ' ++ (d ++ v)) = some ⟨k, d ++ v⟩ := by
  have htrim : trimLeftP (fun c => c = ' ') (List.replicate k ' ' ++ (d ++ v)) = d ++ v := by
    induction k with
    | zero =>
      simp only [List.replicate, List.nil_append]
      cases d with
      | nil => exact absurd rfl hne
      | cons c cs =>
        have hcne : c ≠ ' ' := by
          intro he
          apply hh
          simp [he]
        simp [trimLeftP, hcne]
    | succ n ih => simpa [List.replicate, trimLeftP] using ih
  have hlen : (List.replicate k ' ' ++ (d ++ v)).length = k + (d ++ v).length := by
    simp
  have hnn : d ++ v ≠ [] := by
    cases d with
    | nil => exact absurd rfl hne
    | cons c cs => simp
  simp only [ylOf, htrim, hnn, ite_false, if_false, hlen, Nat.add_sub_cancel]

theorem filterMap_eq_map_of {α β : Type} (f : α → Option β) (g : α → β) :
    ∀ (l : List α), (∀ x ∈ l, f x = some (g x)) → l.filterMap f = l.map g := by
  intro l
  induction l with
  | nil => intro _; rfl
  | cons a as ih =>
    intro H
    simp only [List.filterMap_cons, H a (List.mem_cons_self _ _), List.map_cons]
    rw [ih (fun x hx => H x (List.mem_cons_of_mem _ hx))]

theorem plainScalar_parts {s : String} (h : plainScalar s = true) :
    (∀ c ∈ s.data, plainChar c = true) ∧
    (∃ c rest, s.data = c :: rest ∧ c.isAlpha = true) := by
  unfold plainScalar at h
  simp only [Bool.and_eq_true] at h
  obtain ⟨⟨⟨hhead, hall⟩, _⟩, _⟩ := h
  constructor
  · intro c hc
    exact List.all_eq_true.mp hall c hc
  · cases hd : s.data with
    | nil => rw [hd] at hhead; simp at hhead
    | cons c rest =>
      rw [hd] at hhead
      exact ⟨c, rest, rfl, hhead⟩

theorem plainChar_ne_colon {c : Char} (hc : plainChar c = true) : c ≠ ':' := by
  intro h
  subst h
  exact absurd hc (by decide)

theorem plainChar_ne_nl {c : Char} (hc : plainChar c = true) : c ≠ '\n' := by
  intro h
  subst h
  exact absurd hc (by decide)

theorem isAlpha_ne_space {c : Char} (hc : c.isAlpha = true) : c ≠ ' ' := by
  intro h
  subst h
  exact absurd hc (by decide)

theorem isAlpha_ne_dash {c : Char} (hc : c.isAlpha = true) : c ≠ '-' := by
  intro h
  subst h
  exact absurd hc (by decide)

theorem plain_colon_free {s : String} (h : plainScalar s = true) :
    ∀ c ∈ s.data, c ≠ ':' :=
  fun c hc => plainChar_ne_colon ((plainScalar_parts h).1 c hc)

theorem plain_no_nl {s : String} (h : plainScalar s = true) : '\n' ∉ s.data := by
  intro hm
  exact absurd rfl (plainChar_ne_nl ((plainScalar_parts h).1 '\n' hm))

theorem plain_ne_nil {s : String} (h : plainScalar s = true) : s.data ≠ [] := by
  obtain ⟨c, rest, he, _⟩ := (plainScalar_parts h).2
  rw [he]
  simp

theorem plain_head_ne_space {s : String} (h : plainScalar s = true) :
    s.data.head? ≠ some ' ' := by
  obtain ⟨c, rest, he, ha⟩ := (plainScalar_parts h).2
  rw [he]
  simp only [List.head?_cons, ne_eq, Option.some.injEq]
  intro hc
  exact isAlpha_ne_space ha hc

theorem plain_head_ne_dash {s : String} (h : plainScalar s = true) :
    s.data.head? ≠ some '-' := by
  obtain ⟨c, rest, he, ha⟩ := (plainScalar_parts h).2
  rw [he]
  simp only [List.head?_cons, ne_eq, Option.some.injEq]
  intro hc
  exact isAlpha_ne_dash ha hc

theorem plainOpt_no_nl {s : String} (h : plainOpt s = true) : '\n' ∉ s.data := by
  have h' : s = "" ∨ plainScalar s = true := by simpa [plainOpt] using h
  rcases h' with he | hp
  · subst he
    simp [String.data]
  · exact plain_no_nl hp

theorem kvSplit_none (d : List Char) (h : ∀ c ∈ d, c ≠ ':') : kvSplit d = none := by
  induction d with
  | nil => rfl
  | cons c cs ih =>
    have hc : c ≠ ':' := h c (List.mem_cons_self _ _)
    have ihh := ih (fun x hx => h x (List.mem_cons_of_mem _ hx))
    simp [kvSplit, hc, ihh]

theorem kvSplit_key (k r : List Char) (h : ∀ c ∈ k, c ≠ ':') :
    kvSplit (k ++ ':' :: r) = some (k, r) := by
  induction k with
  | nil => simp [kvSplit]
  | cons c cs ih =>
    have hc : c ≠ ':' := h c (List.mem_cons_self _ _)
    have ihh := ih (fun x hx => h x (List.mem_cons_of_mem _ hx))
    simp [kvSplit, hc, ihh]

theorem closeToAux_of_le {i : Nat} {f : Frame} (R : List Frame)
    (h : frameInd f ≤ i) : closeToAux i f R = some (f :: R) := by
  cases R <;> simp [closeToAux, Nat.not_lt.mpr h]

theorem closeTo_of_le {i : Nat} {f : Frame} {R : List Frame}
    (h : frameInd f ≤ i) : closeTo i (f :: R) = some (f :: R) :=
  closeToAux_of_le R h

theorem closeToAux_trans {i j : Nat} (hij : i ≤ j) :
    ∀ (R : List Frame) (f : Frame) (st₂ : List Frame),
      closeToAux j f R = some st₂ → closeToAux i f R = closeTo i st₂ := by
  intro R
  induction R with
  | nil =>
    intro f st₂ h
    simp only [closeToAux] at h
    by_cases hj : j < frameInd f
    · simp [hj] at h
    · simp only [hj, ite_false, if_false, Option.some.injEq] at h
      subst h
      rfl
  | cons g rest ih =>
    intro f st₂ h
    simp only [closeToAux] at h
    by_cases hj : j < frameInd f
    · rw [if_pos hj] at h
      cases hat : attachVal (closeFrame f) g with
      | none => rw [hat] at h; cases h
      | some g2 =>
        rw [hat] at h
        have hi : i < frameInd f := Nat.lt_of_le_of_lt hij hj
        simp only [closeToAux, if_pos hi, hat]
        exact ih g2 st₂ h
    · rw [if_neg hj] at h
      injection h with h
      subst h
      rfl

theorem closeTo_trans {i j : Nat} (hij : i ≤ j) {st st₂ : List Frame}
    (h : closeTo j st = some st₂) : closeTo i st = closeTo i st₂ := by
  cases st with
  | nil => simp [closeTo] at h
  | cons f R => exact closeToAux_trans hij R f st₂ h

theorem closeTo_idem {i : Nat} {st st₂ : List Frame}
    (h : closeTo i st = some st₂) : closeTo i st₂ = some st₂ := by
  have ht := closeTo_trans (Nat.le_refl i) h
  rw [h] at ht
  exact ht.symm

theorem closeAllAux_of_closeToAux {j : Nat} :
    ∀ (R : List Frame) (f : Frame) (st₂ : List Frame),
      closeToAux j f R = some st₂ → closeAllAux f R = closeAll st₂ := by
  intro R
  induction R with
  | nil =>
    intro f st₂ h
    simp only [closeToAux] at h
    by_cases hj : j < frameInd f
    · simp [hj] at h
    · simp only [hj, ite_false, if_false, Option.some.injEq] at h
      subst h
      rfl
  | cons g rest ih =>
    intro f st₂ h
    simp only [closeToAux] at h
    by_cases hj : j < frameInd f
    · rw [if_pos hj] at h
      cases hat : attachVal (closeFrame f) g with
      | none => rw [hat] at h; cases h
      | some g2 =>
        rw [hat] at h
        simp only [closeAllAux, hat]
        exact ih g2 st₂ h
    · rw [if_neg hj] at h
      injection h with h
      subst h
      rfl

theorem closeAll_of_closeTo {j : Nat} {st st₂ : List Frame}
    (h : closeTo j st = some st₂) : closeAll st = closeAll st₂ := by
  cases st with
  | nil => simp [closeTo] at h
  | cons f R => exact closeAllAux_of_closeToAux R f st₂ h

theorem procLine_eq_of_closeTo {st st₂ : List Frame} {l : YLine}
    (h : closeTo l.ind st = some st₂) : procLine st l = procLine st₂ l := by
  unfold procLine
  rw [h, closeTo_idem h]

theorem runLines_append (st : List Frame) (a b : List YLine) :
    runLines st (a ++ b) =
      match runLines st a with
      | none => none
      | some st2 => runLines st2 b := by
  induction a generalizing st with
  | nil => simp [runLines]
  | cons l ls ih =>
    simp only [List.cons_append, runLines]
    cases procLine st l with
    | none => rfl
    | some st2 => exact ih st2

theorem runLines_head_eq {st st₂ : List Frame} {l : YLine} {ls : List YLine}
    (h : procLine st l = procLine st₂ l) :
    runLines st (l :: ls) = runLines st₂ (l :: ls) := by
  simp [runLines, h]

/-- Scalar sequence items appended one by one. -/
theorem run_seq_scalars (k : Nat) (xs : List String)
    (hplain : ∀ x ∈ xs, ∀ c ∈ x.data, c ≠ ':') :
    ∀ (items : List Yaml) (R : List Frame),
      runLines (Frame.fseq k items :: R)
          (xs.map (fun x => (⟨k, '-' :: ' ' :: x.data⟩ : YLine))) =
        some (Frame.fseq k (items ++ xs.map Yaml.str) :: R) := by
  induction xs with
  | nil => intro items R; simp [runLines]
  | cons x xs ih =>
    intro items R
    have hkv : kvOfTxt x.data = none := by
      rw [kvOfTxt, kvSplit_none x.data (hplain x (List.mem_cons_self _ _))]
    have hct : closeTo k (Frame.fseq k items :: R) = some (Frame.fseq k items :: R) :=
      closeTo_of_le (by simp [frameInd])
    have hstep : procLine (Frame.fseq k items :: R) ⟨k, '-' :: ' ' :: x.data⟩ =
        some (Frame.fseq k (items ++ [Yaml.str x]) :: R) := by
      simp [procLine, hct, procSeqLine, hkv]
    simp only [List.map_cons, runLines, hstep]
    rw [ih (fun y hy => hplain y (List.mem_cons_of_mem _ hy)) (items ++ [Yaml.str x]) R]
    simp

/-- Mapping entries appended one by one (the `with:` block body). -/
theorem run_map_kvs (k : Nat) (kvs : List (String × String))
    (hkeys : ∀ kv ∈ kvs, ∀ c ∈ kv.1.data, c ≠ ':') :
    ∀ (entries : List (String × Yaml)) (R : List Frame),
      runLines (Frame.fmap k entries none :: R)
          (kvs.map (fun kv => (⟨k, (kv.1 ++ ": " ++ kv.2).data⟩ : YLine))) =
        some (Frame.fmap k
          (entries ++ kvs.map (fun kv => (kv.1, Yaml.str kv.2))) none :: R) := by
  induction kvs with
  | nil => intro entries R; simp [runLines]
  | cons kv kvs ih =>
    intro entries R
    have hkv : kvOfTxt (kv.1.data ++ ':' :: ' ' :: kv.2.data) = some (kv.1, some kv.2) := by
      rw [kvOfTxt, kvSplit_key kv.1.data (' ' :: kv.2.data)
        (hkeys kv (List.mem_cons_self _ _))]
      rfl
    have hct : closeTo k (Frame.fmap k entries none :: R) =
        some (Frame.fmap k entries none :: R) :=
      closeTo_of_le (by simp [frameInd])
    have hstep : procLine (Frame.fmap k entries none :: R)
        ⟨k, (kv.1 ++ ": " ++ kv.2).data⟩ =
        some (Frame.fmap k (entries ++ [(kv.1, Yaml.str kv.2)]) none :: R) := by
      simp [procLine, hct, procMapLine, hkv]
    simp only [List.map_cons, runLines, hstep]
    rw [ih (fun y hy => hkeys y (List.mem_cons_of_mem _ hy)) (entries ++ [(kv.1, Yaml.str kv.2)]) R]
    simp

/-- Resolve a dangling pending key with a null value. -/
def resolveP (done : List (String × Yaml)) : Option String → List (String × Yaml)
  | some k => done ++ [(k, Yaml.null)]
  | none => done

theorem procLine_fmap_kv (i : Nat) (done : List (String × Yaml)) (P : Option String)
    (R : List Frame) (key v : String) (hkey : ∀ c ∈ key.data, c ≠ ':') :
    procLine (Frame.fmap i done P :: R) ⟨i, (key ++ ": " ++ v).data⟩ =
      some (Frame.fmap i (resolveP done P ++ [(key, Yaml.str v)]) none :: R) := by
  have hct : closeTo i (Frame.fmap i done P :: R) = some (Frame.fmap i done P :: R) :=
    closeTo_of_le (by simp [frameInd])
  have hkv : kvOfTxt (key.data ++ ':' :: ' ' :: v.data) = some (key, some v) := by
    rw [kvOfTxt, kvSplit_key _ _ hkey]
    rfl
  unfold procLine
  rw [hct]
  simp [procMapLine, hkv, resolveP]

theorem procLine_fmap_pending (i : Nat) (done : List (String × Yaml)) (P : Option String)
    (R : List Frame) (key : String) (hkey : ∀ c ∈ key.data, c ≠ ':') :
    procLine (Frame.fmap i done P :: R) ⟨i, (key ++ ":").data⟩ =
      some (Frame.fmap i (resolveP done P) (some key) :: R) := by
  have hct : closeTo i (Frame.fmap i done P :: R) = some (Frame.fmap i done P :: R) :=
    closeTo_of_le (by simp [frameInd])
  have hkv : kvOfTxt (key.data ++ [':']) = some (key, none) := by
    rw [kvOfTxt, kvSplit_key _ _ hkey]
  unfold procLine
  rw [hct]
  simp [procMapLine, hkv, resolveP]

theorem procLine_open_map_kv (p i : Nat) (done : List (String × Yaml)) (pk : String)
    (R : List Frame) (key v : String) (hpi : p < i)
    (hkey : ∀ c ∈ key.data, c ≠ ':') (hhd : key.data.head? ≠ some '-') :
    procLine (Frame.fmap p done (some pk) :: R) ⟨i, (key ++ ": " ++ v).data⟩ =
      some (Frame.fmap i [(key, Yaml.str v)] none ::
        Frame.fmap p done (some pk) :: R) := by
  have hct : closeTo i (Frame.fmap p done (some pk) :: R) =
      some (Frame.fmap p done (some pk) :: R) :=
    closeTo_of_le (by simp [frameInd]; omega)
  have hkv : kvOfTxt (key.data ++ ':' :: ' ' :: v.data) = some (key, some v) := by
    rw [kvOfTxt, kvSplit_key _ _ hkey]
    rfl
  have hne : ¬ i = p := by omega
  unfold procLine
  rw [hct]
  simp [hne, hpi, hhd, procMapLine, hkv]

theorem procLine_open_map_pending (p i : Nat) (done : List (String × Yaml)) (pk : String)
    (R : List Frame) (key : String) (hpi : p < i)
    (hkey : ∀ c ∈ key.data, c ≠ ':') (hhd : key.data.head? ≠ some '-') :
    procLine (Frame.fmap p done (some pk) :: R) ⟨i, (key ++ ":").data⟩ =
      some (Frame.fmap i [] (some key) :: Frame.fmap p done (some pk) :: R) := by
  have hct : closeTo i (Frame.fmap p done (some pk) :: R) =
      some (Frame.fmap p done (some pk) :: R) :=
    closeTo_of_le (by simp [frameInd]; omega)
  have hkv : kvOfTxt (key.data ++ [':']) = some (key, none) := by
    rw [kvOfTxt, kvSplit_key _ _ hkey]
  have hne : ¬ i = p := by omega
  unfold procLine
  rw [hct]
  simp [hne, hpi, hhd, procMapLine, hkv]

theorem procLine_open_seq_scalar (p i : Nat) (done : List (String × Yaml)) (pk : String)
    (R : List Frame) (x : String) (hpi : p < i)
    (hx : ∀ c ∈ x.data, c ≠ ':') :
    procLine (Frame.fmap p done (some pk) :: R) ⟨i, '-' :: ' ' :: x.data⟩ =
      some (Frame.fseq i [Yaml.str x] :: Frame.fmap p done (some pk) :: R) := by
  have hct : closeTo i (Frame.fmap p done (some pk) :: R) =
      some (Frame.fmap p done (some pk) :: R) :=
    closeTo_of_le (by simp [frameInd]; omega)
  have hkv : kvOfTxt x.data = none := by
    rw [kvOfTxt, kvSplit_none x.data hx]
  have hne : ¬ i = p := by omega
  unfold procLine
  rw [hct]
  simp [hne, hpi, procSeqLine, hkv]

theorem procLine_open_seq_item_kv (p i : Nat) (done : List (String × Yaml)) (pk : String)
    (R : List Frame) (key v : String) (hpi : p < i)
    (hkey : ∀ c ∈ key.data, c ≠ ':') :
    procLine (Frame.fmap p done (some pk) :: R) ⟨i, '-' :: ' ' :: (key ++ ": " ++ v).data⟩ =
      some (Frame.fmap (i + 2) [(key, Yaml.str v)] none :: Frame.fseq i [] ::
        Frame.fmap p done (some pk) :: R) := by
  have hct : closeTo i (Frame.fmap p done (some pk) :: R) =
      some (Frame.fmap p done (some pk) :: R) :=
    closeTo_of_le (by simp [frameInd]; omega)
  have hkv : kvOfTxt (key.data ++ ':' :: ' ' :: v.data) = some (key, some v) := by
    rw [kvOfTxt, kvSplit_key _ _ hkey]
    rfl
  have hne : ¬ i = p := by omega
  unfold procLine
  rw [hct]
  simp [hne, hpi, procSeqLine, hkv]

theorem procLine_seq_item_kv (i : Nat) (items : List Yaml) (R : List Frame)
    (key v : String) (hkey : ∀ c ∈ key.data, c ≠ ':') :
    procLine (Frame.fseq i items :: R) ⟨i, '-' :: ' ' :: (key ++ ": " ++ v).data⟩ =
      some (Frame.fmap (i + 2) [(key, Yaml.str v)] none :: Frame.fseq i items :: R) := by
  have hct : closeTo i (Frame.fseq i items :: R) = some (Frame.fseq i items :: R) :=
    closeTo_of_le (by simp [frameInd])
  have hkv : kvOfTxt (key.data ++ ':' :: ' ' :: v.data) = some (key, some v) := by
    rw [kvOfTxt, kvSplit_key _ _ hkey]
    rfl
  unfold procLine
  rw [hct]
  simp [procSeqLine, hkv]

/-- The classified lines of one emitted step. -/
def ghStepYs (s : Step) : List YLine :=
  (if s.name ≠ "" then
    (⟨6, '-' :: ' ' :: ("name" ++ ": " ++ s.name).data⟩ : YLine) ::
    (if s.uses ≠ "" then
      (⟨8, ("uses" ++ ": " ++ s.uses).data⟩ : YLine) ::
      (if s.withArgs ≠ [] then
        (⟨8, ("with" ++ ":").data⟩ : YLine) ::
          s.withArgs.map (fun kv => (⟨10, (kv.1 ++ ": " ++ kv.2).data⟩ : YLine))
      else [])
    else if s.run ≠ "" then [(⟨8, ("run" ++ ": " ++ s.run).data⟩ : YLine)] else [])
  else
    (if s.uses ≠ "" then
      (⟨6, '-' :: ' ' :: ("uses" ++ ": " ++ s.uses).data⟩ : YLine) ::
      (if s.withArgs ≠ [] then
        (⟨8, ("with" ++ ":").data⟩ : YLine) ::
          s.withArgs.map (fun kv => (⟨10, (kv.1 ++ ": " ++ kv.2).data⟩ : YLine))
      else [])
    else if s.run ≠ "" then
      [(⟨6, '-' :: ' ' :: ("run" ++ ": " ++ s.run).data⟩ : YLine)]
    else [])) ++
  (if s.ifCond ≠ "" then [(⟨8, ("if" ++ ": " ++ s.ifCond).data⟩ : YLine)] else [])

/-- The classified lines of one emitted trigger (safe shape). -/
def ghTriggerYs (t : Trigger) : List YLine :=
  (⟨2, (t.type ++ ":").data⟩ : YLine) ::
  (⟨4, ("branches" ++ ":").data⟩ : YLine) ::
  t.branches.map (fun b => (⟨6, '-' :: ' ' :: b.data⟩ : YLine))

/-- The classified lines of one emitted job. -/
def ghJobYs (j : Job) : List YLine :=
  (⟨2, (sanitizeName j.name ++ ":").data⟩ : YLine) ::
  (⟨4, ("runs-on" ++ ": " ++ j.runsOn).data⟩ : YLine) ::
  ((if j.dependsOn ≠ [] then
      (⟨4, ("needs" ++ ":").data⟩ : YLine) ::
        j.dependsOn.map (fun d => (⟨6, '-' :: ' ' :: d.data⟩ : YLine))
    else []) ++
   (if j.condition ≠ "" then
      [(⟨4, ("if" ++ ": " ++ convertCondition j.condition Platform.github).data⟩ : YLine)]
    else []) ++
   ((⟨4, ("steps" ++ ":").data⟩ : YLine) ::
    ((if ghHasCheckout j.steps then []
      else [(⟨6, '-' :: ' ' :: ("uses" ++ ": " ++ "actions/checkout@v4").data⟩ : YLine)]) ++
     (j.steps.map ghStepYs).flatten)))

/-- The classified lines of the whole emitted document. -/
def ghDocYs (c : PipelineConfig) : List YLine :=
  (⟨0, ("name" ++ ": " ++ c.name).data⟩ : YLine) ::
  (⟨0, ("on" ++ ":").data⟩ : YLine) ::
  ((c.triggers.map ghTriggerYs).flatten ++
   ((⟨0, ("jobs" ++ ":").data⟩ : YLine) :: (c.jobs.map ghJobYs).flatten))

theorem ylOf_indented2 (k : Nat) (d : List Char) (hne : d ≠ [])
    (hh : d.head? ≠ some ' ') :
    ylOf (List.replicate k ' ' ++ d) = some ⟨k, d⟩ := by
  have h := ylOf_indented k d [] hne hh
  simpa using h

theorem ylOf_lit (k : Nat) (full d : List Char) (c : Char) (rest : List Char)
    (h1 : full = List.replicate k ' ' ++ d) (h2 : d = c :: rest) (h3 : c ≠ ' ') :
    ylOf full = some ⟨k, d⟩ := by
  subst h1
  apply ylOf_indented2 k d (by rw [h2]; simp) (by rw [h2]; simp [h3])

theorem ylOf_with_kv (k1 k2 : String) (h1 : plainScalar k1 = true) :
    ylOf (("          " ++ k1 ++ ": " ++ k2).data) = some ⟨10, (k1 ++ ": " ++ k2).data⟩ := by
  obtain ⟨c, rest, hc, ha⟩ := (plainScalar_parts h1).2
  have hfull : ("          " ++ k1 ++ ": " ++ k2).data =
      List.replicate 10 ' ' ++ (k1 ++ ": " ++ k2).data := by
    simp only [String.data_append, List.append_assoc]
    rfl
  rw [hfull]
  apply ylOf_indented2 10
  · have hd : (k1 ++ ": " ++ k2).data = k1.data ++ (':' :: ' ' :: k2.data) := by
      simp [String.data_append]
    rw [hd, hc]
    simp
  · have hd : (k1 ++ ": " ++ k2).data = k1.data ++ (':' :: ' ' :: k2.data) := by
      simp [String.data_append]
    rw [hd, hc]
    simp only [List.cons_append, List.head?_cons, ne_eq, Option.some.injEq]
    intro hsp
    exact isAlpha_ne_space ha hsp

theorem ylOf_jobkey (san : String) (h1 : plainScalar san = true) :
    ylOf (("  " ++ san ++ ":").data) = some ⟨2, (san ++ ":").data⟩ := by
  obtain ⟨c, rest, hc, ha⟩ := (plainScalar_parts h1).2
  have hfull : ("  " ++ san ++ ":").data =
      List.replicate 2 ' ' ++ (san ++ ":").data := by
    simp only [String.data_append, List.append_assoc]
    rfl
  rw [hfull]
  apply ylOf_indented2 2
  · have hd : (san ++ ":").data = san.data ++ [':'] := by
      simp [String.data_append]
    rw [hd, hc]
    simp
  · have hd : (san ++ ":").data = san.data ++ [':'] := by
      simp [String.data_append]
    rw [hd, hc]
    simp only [List.cons_append, List.head?_cons, ne_eq, Option.some.injEq]
    intro hsp
    exact isAlpha_ne_space ha hsp

theorem safeStep_parts {s : Step} (h : safeStep s = true) :
    (s.name = "" ∨ plainScalar s.name = true) ∧
    ((s.uses ≠ "" ∧ s.run = "" ∧ plainScalar s.uses = true ∧
        (∀ kv ∈ s.withArgs, plainScalar kv.1 = true ∧ plainScalar kv.2 = true) ∧
        (s.withArgs.map Prod.fst).Nodup) ∨
      (s.uses = "" ∧ s.run ≠ "" ∧ plainScalar s.run = true ∧ s.withArgs = [])) ∧
    (s.ifCond = "" ∨ plainScalar s.ifCond = true) ∧
    s.env = [] ∧ s.workDir = "" := by
  unfold safeStep plainOpt at h
  simp only [Bool.and_eq_true, Bool.or_eq_true, beq_iff_eq, Bool.not_eq_true',
    beq_eq_false_iff_ne, ne_eq, List.all_eq_true, decide_eq_true_eq] at h
  refine ⟨?_, ?_, ?_, ?_, ?_⟩
  · tauto
  · obtain ⟨⟨⟨⟨_, huses⟩, _⟩, _⟩, _⟩ := h
    rcases huses with ⟨⟨⟨⟨hu, hr⟩, hpu⟩, hwall⟩, hnd⟩ | ⟨⟨⟨hu, hr⟩, hpr⟩, hw⟩
    · exact Or.inl ⟨hu, hr, hpu, hwall, hnd⟩
    · exact Or.inr ⟨hu, hr, hpr, hw⟩
  · tauto
  · tauto
  · tauto

theorem safeTrigger_parts {t : Trigger} (h : safeTrigger t = true) :
    (t.type = "push" ∨ t.type = "pull_request") ∧
    t.branches ≠ [] ∧ (∀ b ∈ t.branches, plainScalar b = true) ∧
    t.paths = [] ∧ t.cron = "" := by
  unfold safeTrigger at h
  simp only [Bool.and_eq_true, Bool.or_eq_true, beq_iff_eq, Bool.not_eq_true',
    beq_eq_false_iff_ne, ne_eq, List.all_eq_true] at h
  refine ⟨?_, ?_, ?_, ?_, ?_⟩ <;> tauto

theorem safeJob_parts {j : Job} (h : safeJob j = true) :
    plainScalar (sanitizeName j.name) = true ∧
    plainScalar j.runsOn = true ∧
    (∀ d ∈ j.dependsOn, plainScalar d = true) ∧
    (j.condition = "" ∨ plainScalar j.condition = true) ∧
    j.environment = [] ∧ j.services = [] ∧ j.artifacts = [] ∧ j.cache = [] ∧
    (∀ s ∈ j.steps, safeStep s = true) := by
  unfold safeJob plainOpt at h
  simp only [Bool.and_eq_true, Bool.or_eq_true, beq_iff_eq, List.all_eq_true] at h
  refine ⟨?_, ?_, ?_, ?_, ?_, ?_, ?_, ?_, ?_⟩ <;> tauto

theorem safeCfg_parts {c : PipelineConfig} (h : safeCfg c = true) :
    (c.name = "" ∨ plainScalar c.name = true) ∧
    c.environment = [] ∧
    (∀ t ∈ c.triggers, safeTrigger t = true) ∧
    triggerShapeOK c.triggers = true ∧
    (∀ j ∈ c.jobs, safeJob j = true) ∧
    (c.jobs.map (fun j => sanitizeName j.name)).Nodup := by
  unfold safeCfg plainOpt at h
  simp only [Bool.and_eq_true, Bool.or_eq_true, beq_iff_eq, List.all_eq_true,
    decide_eq_true_eq] at h
  refine ⟨?_, ?_, ?_, ?_, ?_, ?_⟩ <;> tauto

theorem filterMap_flatten {α β : Type} (f : α → Option β) :
    ∀ (L : List (List α)), (L.flatten).filterMap f = (L.map (List.filterMap f)).flatten := by
  intro L
  induction L with
  | nil => rfl
  | cons x xs ih => simp [List.filterMap_append, ih]

theorem stepLines_Ys (s : Step) (hs : safeStep s = true) :
    (ghStepLines s).filterMap (fun l => ylOf l.data) = ghStepYs s := by
  obtain ⟨hname, hur, hif, -, -⟩ := safeStep_parts hs
  have yIf : ylOf (("        if: " ++ s.ifCond).data) =
      some ⟨8, ("if" ++ ": " ++ s.ifCond).data⟩ :=
    ylOf_lit 8 _ _ 'i' (("f" ++ ": " ++ s.ifCond).data) rfl rfl (by decide)
  have yNm : ylOf (("      - name: " ++ s.name).data) =
      some ⟨6, '-' :: ' ' :: ("name" ++ ": " ++ s.name).data⟩ :=
    ylOf_lit 6 _ _ '-' (' ' :: ("name" ++ ": " ++ s.name).data) rfl rfl (by decide)
  have yU8 : ylOf (("        uses: " ++ s.uses).data) =
      some ⟨8, ("uses" ++ ": " ++ s.uses).data⟩ :=
    ylOf_lit 8 _ _ 'u' (("ses" ++ ": " ++ s.uses).data) rfl rfl (by decide)
  have yU6 : ylOf (("      - uses: " ++ s.uses).data) =
      some ⟨6, '-' :: ' ' :: ("uses" ++ ": " ++ s.uses).data⟩ :=
    ylOf_lit 6 _ _ '-' (' ' :: ("uses" ++ ": " ++ s.uses).data) rfl rfl (by decide)
  have yR8 : ylOf (("        run: " ++ s.run).data) =
      some ⟨8, ("run" ++ ": " ++ s.run).data⟩ :=
    ylOf_lit 8 _ _ 'r' (("un" ++ ": " ++ s.run).data) rfl rfl (by decide)
  have yR6 : ylOf (("      - run: " ++ s.run).data) =
      some ⟨6, '-' :: ' ' :: ("run" ++ ": " ++ s.run).data⟩ :=
    ylOf_lit 6 _ _ '-' (' ' :: ("run" ++ ": " ++ s.run).data) rfl rfl (by decide)
  have yW : ylOf (("        with:").data) = some ⟨8, ("with" ++ ":").data⟩ := rfl
  simp only [String.data_append] at yIf yNm yU8 yU6 yR8 yR6 yW
  simp at yIf yNm yU8 yU6 yR8 yR6 yW
  rcases hur with ⟨hu, hr, hpu, hwall, -⟩ | ⟨hu, hr, hpr, hwnil⟩
  · have hwith : (s.withArgs.map
        (fun kv => "          " ++ kv.1 ++ ": " ++ kv.2)).filterMap
          (fun l => ylOf l.data) =
        s.withArgs.map (fun kv => (⟨10, (kv.1 ++ ": " ++ kv.2).data⟩ : YLine)) := by
      rw [List.filterMap_map]
      exact filterMap_eq_map_of _ _ _
        (fun kv hkv => ylOf_with_kv kv.1 kv.2 (hwall kv hkv).1)
    by_cases hn : s.name = "" <;> by_cases hw : s.withArgs = [] <;>
      by_cases hi : s.ifCond = "" <;>
      simp [ghStepLines, ghStepYs, hn, hu, hr, hw, hi, hwith,
        List.filterMap_cons, List.filterMap_append, yIf, yNm, yU8, yU6, yW]
  · by_cases hn : s.name = "" <;> by_cases hi : s.ifCond = "" <;>
      simp [ghStepLines, ghStepYs, hn, hu, hr, hwnil, hi,
        List.filterMap_cons, List.filterMap_append, yIf, yNm, yR8, yR6]

theorem triggerLines_Ys (t : Trigger) (hst : safeTrigger t = true) :
    (ghTriggerLines t).filterMap (fun l => ylOf l.data) = ghTriggerYs t := by
  obtain ⟨hty, hbne, -, -, -⟩ := safeTrigger_parts hst
  have ybr : (t.branches.map (fun b => "      - " ++ b)).filterMap (fun l => ylOf l.data) =
      t.branches.map (fun b => (⟨6, '-' :: ' ' :: b.data⟩ : YLine)) := by
    rw [List.filterMap_map]
    exact filterMap_eq_map_of _ _ _ (fun b _ =>
      ylOf_lit 6 _ _ '-' (' ' :: b.data) rfl rfl (by decide))
  have ypush : ylOf ("  push:".data) = some ⟨2, ("push" ++ ":").data⟩ := rfl
  have ypr : ylOf ("  pull_request:".data) = some ⟨2, ("pull_request" ++ ":").data⟩ := rfl
  have ybl : ylOf ("    branches:".data) = some ⟨4, ("branches" ++ ":").data⟩ := rfl
  simp at ypush ypr ybl
  rcases hty with hp | hp <;>
    simp [ghTriggerLines, ghTriggerYs, hp, hbne, List.filterMap_cons, ypush, ypr, ybl, ybr]

theorem jobLines_Ys (j : Job) (hsj : safeJob j = true) :
    (ghJobLines j).filterMap (fun l => ylOf l.data) = ghJobYs j := by
  obtain ⟨hsan, -, -, -, -, -, -, -, hstall⟩ := safeJob_parts hsj
  have ykey := ylOf_jobkey (sanitizeName j.name) hsan
  have yro : ylOf (("    runs-on: " ++ j.runsOn).data) =
      some ⟨4, ("runs-on" ++ ": " ++ j.runsOn).data⟩ :=
    ylOf_lit 4 _ _ 'r' (("uns-on" ++ ": " ++ j.runsOn).data) rfl rfl (by decide)
  have yneeds : ylOf ("    needs:".data) = some ⟨4, ("needs" ++ ":").data⟩ := rfl
  have yifj : ylOf (("    if: " ++ convertCondition j.condition Platform.github).data) =
      some ⟨4, ("if" ++ ": " ++ convertCondition j.condition Platform.github).data⟩ :=
    ylOf_lit 4 _ _ 'i'
      (("f" ++ ": " ++ convertCondition j.condition Platform.github).data) rfl rfl (by decide)
  have ysteps : ylOf ("    steps:".data) = some ⟨4, ("steps" ++ ":").data⟩ := rfl
  have yck : ylOf ("      - uses: actions/checkout@v4".data) =
      some ⟨6, '-' :: ' ' :: ("uses" ++ ": " ++ "actions/checkout@v4").data⟩ := rfl
  have ydeps : (j.dependsOn.map (fun d => "      - " ++ d)).filterMap
      (fun l => ylOf l.data) =
      j.dependsOn.map (fun d => (⟨6, '-' :: ' ' :: d.data⟩ : YLine)) := by
    rw [List.filterMap_map]
    exact filterMap_eq_map_of _ _ _ (fun d _ =>
      ylOf_lit 6 _ _ '-' (' ' :: d.data) rfl rfl (by decide))
  have ystepsfl : ((j.steps.map ghStepLines).flatten).filterMap (fun l => ylOf l.data) =
      (j.steps.map ghStepYs).flatten := by
    rw [filterMap_flatten, List.map_map]
    congr 1
    refine List.map_congr_left (fun s hx => ?_)
    show (ghStepLines s).filterMap (fun l => ylOf l.data) = ghStepYs s
    exact stepLines_Ys s (hstall s hx)
  simp at ykey yro yneeds yifj ysteps yck
  by_cases hd : j.dependsOn = [] <;> by_cases hc : j.condition = "" <;>
    by_cases hk : ghHasCheckout j.steps <;>
    simp [ghJobLines, ghJobYs, hd, hc, hk, List.filterMap_cons, List.filterMap_append,
      ykey, yro, yneeds, yifj, ysteps, yck, ydeps, ystepsfl]

theorem docLines_Ys (c : PipelineConfig) (hsafe : safeCfg c = true) :
    (ghDocLines c).filterMap (fun l => ylOf l.data) = ghDocYs c := by
  obtain ⟨-, -, htall, -, hjall, -⟩ := safeCfg_parts hsafe
  have yname : ylOf (("name: " ++ c.name).data) =
      some ⟨0, ("name" ++ ": " ++ c.name).data⟩ :=
    ylOf_lit 0 _ _ 'n' (("ame" ++ ": " ++ c.name).data) rfl rfl (by decide)
  have yon : ylOf ("on:".data) = some ⟨0, ("on" ++ ":").data⟩ := rfl
  have yjobs : ylOf ("jobs:".data) = some ⟨0, ("jobs" ++ ":").data⟩ := rfl
  have yblank : ylOf ("".data) = none := rfl
  have ytr : ((c.triggers.map ghTriggerLines).flatten).filterMap (fun l => ylOf l.data) =
      (c.triggers.map ghTriggerYs).flatten := by
    rw [filterMap_flatten, List.map_map]
    congr 1
    refine List.map_congr_left (fun t ht => ?_)
    show (ghTriggerLines t).filterMap (fun l => ylOf l.data) = ghTriggerYs t
    exact triggerLines_Ys t (htall t ht)
  have yjb : ((c.jobs.map ghJobLines).flatten).filterMap (fun l => ylOf l.data) =
      (c.jobs.map ghJobYs).flatten := by
    rw [filterMap_flatten, List.map_map]
    congr 1
    refine List.map_congr_left (fun jj hj => ?_)
    show (ghJobLines jj).filterMap (fun l => ylOf l.data) = ghJobYs jj
    exact jobLines_Ys jj (hjall jj hj)
  simp at yname yon yjobs
  simp [ghDocLines, ghDocYs, List.filterMap_cons, List.filterMap_append,
    yname, yon, yjobs, yblank, ytr, yjb]

theorem no_nl_append {a b : String} (ha : '\n' ∉ a.data) (hb : '\n' ∉ b.data) :
    '\n' ∉ (a ++ b).data := by
  rw [String.data_append]
  intro h
  rcases List.mem_append.mp h with h | h
  · exact ha h
  · exact hb h

theorem stepLines_no_nl (s : Step) (hs : safeStep s = true) :
    ∀ l ∈ ghStepLines s, '\n' ∉ l.data := by
  obtain ⟨hname, hur, hif, -, -⟩ := safeStep_parts hs
  have hnmnl : '\n' ∉ s.name.data := by
    rcases hname with h | h
    · rw [h]; simp [String.data]
    · exact plain_no_nl h
  have hifnl : '\n' ∉ s.ifCond.data := by
    rcases hif with h | h
    · rw [h]; simp [String.data]
    · exact plain_no_nl h
  have husnl : '\n' ∉ s.uses.data := by
    rcases hur with ⟨-, -, hpu, -, -⟩ | ⟨hu, -, -, -⟩
    · exact plain_no_nl hpu
    · rw [hu]; simp [String.data]
  have hrunnl : '\n' ∉ s.run.data := by
    rcases hur with ⟨-, hr, -, -, -⟩ | ⟨-, -, hpr, -⟩
    · rw [hr]; simp [String.data]
    · exact plain_no_nl hpr
  have hwnl : ∀ kv ∈ s.withArgs, '\n' ∉ kv.1.data ∧ '\n' ∉ kv.2.data := by
    rcases hur with ⟨-, -, -, hwall, -⟩ | ⟨-, -, -, hw⟩
    · exact fun kv hkv => ⟨plain_no_nl (hwall kv hkv).1, plain_no_nl (hwall kv hkv).2⟩
    · rw [hw]; intro kv hkv; simp at hkv
  intro l hl
  simp only [ghStepLines, List.mem_append] at hl
  rcases hl with hl | hl
  · split at hl
    · rcases List.mem_cons.mp hl with rfl | hl
      · exact no_nl_append (by decide) hnmnl
      · split at hl
        · rcases List.mem_cons.mp hl with rfl | hl
          · exact no_nl_append (by decide) husnl
          · split at hl
            · rcases List.mem_cons.mp hl with rfl | hl
              · decide
              · obtain ⟨kv, hkv, rfl⟩ := List.mem_map.mp hl
                exact no_nl_append (no_nl_append (no_nl_append (by decide)
                  (hwnl kv hkv).1) (by decide)) (hwnl kv hkv).2
            · exact absurd hl (List.not_mem_nil l)
        · split at hl
          · rw [List.mem_singleton] at hl
            subst hl
            exact no_nl_append (by decide) hrunnl
          · exact absurd hl (List.not_mem_nil l)
    · split at hl
      · rcases List.mem_cons.mp hl with rfl | hl
        · exact no_nl_append (by decide) husnl
        · split at hl
          · rcases List.mem_cons.mp hl with rfl | hl
            · decide
            · obtain ⟨kv, hkv, rfl⟩ := List.mem_map.mp hl
              exact no_nl_append (no_nl_append (no_nl_append (by decide)
                (hwnl kv hkv).1) (by decide)) (hwnl kv hkv).2
          · exact absurd hl (List.not_mem_nil l)
      · split at hl
        · rw [List.mem_singleton] at hl
          subst hl
          exact no_nl_append (by decide) hrunnl
        · exact absurd hl (List.not_mem_nil l)
  · split at hl
    · rw [List.mem_singleton] at hl
      subst hl
      exact no_nl_append (by decide) hifnl
    · exact absurd hl (List.not_mem_nil l)

theorem triggerLines_no_nl (t : Trigger) (hst : safeTrigger t = true) :
    ∀ l ∈ ghTriggerLines t, '\n' ∉ l.data := by
  obtain ⟨hty, hbne, hball, -, -⟩ := safeTrigger_parts hst
  intro l hl
  rcases hty with hp | hp <;>
  · simp [ghTriggerLines, hp, hbne] at hl
    rcases hl with rfl | rfl | ⟨b, hb, rfl⟩
    · decide
    · decide
    · exact no_nl_append (by decide) (plain_no_nl (hball b hb))

theorem jobLines_no_nl (j : Job) (hsj : safeJob j = true) :
    ∀ l ∈ ghJobLines j, '\n' ∉ l.data := by
  obtain ⟨hsan, hro, hdall, hcond, -, -, -, -, hstall⟩ := safeJob_parts hsj
  have hcnl : '\n' ∉ (convertCondition j.condition Platform.github).data := by
    show '\n' ∉ j.condition.data
    rcases hcond with h | h
    · rw [h]; simp [String.data]
    · exact plain_no_nl h
  intro l hl
  simp only [ghJobLines, List.mem_cons, List.mem_append] at hl
  rcases hl with rfl | rfl | ((hl | hl) | (rfl | (hl | hl)))
  · exact no_nl_append (no_nl_append (by decide) (plain_no_nl hsan)) (by decide)
  · exact no_nl_append (by decide) (plain_no_nl hro)
  · split at hl
    · rcases List.mem_cons.mp hl with rfl | hl
      · decide
      · obtain ⟨d, hd, rfl⟩ := List.mem_map.mp hl
        exact no_nl_append (by decide) (plain_no_nl (hdall d hd))
    · exact absurd hl (List.not_mem_nil l)
  · split at hl
    · rw [List.mem_singleton] at hl
      subst hl
      exact no_nl_append (by decide) hcnl
    · exact absurd hl (List.not_mem_nil l)
  · decide
  · split at hl
    · exact absurd hl (List.not_mem_nil l)
    · rw [List.mem_singleton] at hl
      subst hl
      decide
  · obtain ⟨ls₀, hls, hl₀⟩ := List.mem_flatten.mp hl
    obtain ⟨s, hs, rfl⟩ := List.mem_map.mp hls
    exact stepLines_no_nl s (hstall s hs) l hl₀

theorem docLines_no_nl (c : PipelineConfig) (hsafe : safeCfg c = true) :
    ∀ l ∈ ghDocLines c, '\n' ∉ l.data := by
  obtain ⟨hname, -, htall, -, hjall, -⟩ := safeCfg_parts hsafe
  have hnm : '\n' ∉ c.name.data := by
    rcases hname with h | h
    · rw [h]; simp [String.data]
    · exact plain_no_nl h
  intro l hl
  simp only [ghDocLines, List.mem_cons, List.mem_append] at hl
  rcases hl with rfl | rfl | rfl | (hl | (rfl | rfl | hl))
  · exact no_nl_append (by decide) hnm
  · decide
  · decide
  · obtain ⟨ls₀, hls, hl₀⟩ := List.mem_flatten.mp hl
    obtain ⟨t, ht, rfl⟩ := List.mem_map.mp hls
    exact triggerLines_no_nl t (htall t ht) l hl₀
  · decide
  · decide
  · obtain ⟨ls₀, hls, hl₀⟩ := List.mem_flatten.mp hl
    obtain ⟨jj, hj, rfl⟩ := List.mem_map.mp hls
    exact jobLines_no_nl jj (hjall jj hj) l hl₀

theorem procLine_open_child_map (D : List (String × Yaml)) (pk : String) (R : List Frame)
    (txt : List Char) (hhd : txt.head? ≠ some '-') :
    procLine (Frame.fmap 0 D (some pk) :: R) ⟨2, txt⟩ =
      procLine (Frame.fmap 2 [] none :: Frame.fmap 0 D (some pk) :: R) ⟨2, txt⟩ := by
  have hcl : closeTo 2 (Frame.fmap 0 D (some pk) :: R) =
      some (Frame.fmap 0 D (some pk) :: R) :=
    closeTo_of_le (by simp [frameInd])
  have hcr : closeTo 2 (Frame.fmap 2 [] none :: Frame.fmap 0 D (some pk) :: R) =
      some (Frame.fmap 2 [] none :: Frame.fmap 0 D (some pk) :: R) :=
    closeTo_of_le (by simp [frameInd])
  unfold procLine
  rw [hcl, hcr]
  simp [hhd]

theorem runLines_child_map (D : List (String × Yaml)) (pk : String) (R : List Frame)
    (txt : List Char) (ls : List YLine) (hhd : txt.head? ≠ some '-') :
    runLines (Frame.fmap 0 D (some pk) :: R) ((⟨2, txt⟩ : YLine) :: ls) =
      runLines (Frame.fmap 2 [] none :: Frame.fmap 0 D (some pk) :: R)
        ((⟨2, txt⟩ : YLine) :: ls) :=
  runLines_head_eq (procLine_open_child_map D pk R txt hhd)

theorem procLine_steps_start (D : List (String × Yaml)) (pk : String) (R : List Frame)
    (txt : List Char) :
    procLine (Frame.fmap 4 D (some pk) :: R) ⟨6, '-' :: txt⟩ =
      procLine (Frame.fseq 6 [] :: Frame.fmap 4 D (some pk) :: R) ⟨6, '-' :: txt⟩ := by
  have hcl : closeTo 6 (Frame.fmap 4 D (some pk) :: R) =
      some (Frame.fmap 4 D (some pk) :: R) :=
    closeTo_of_le (by simp [frameInd])
  have hcr : closeTo 6 (Frame.fseq 6 [] :: Frame.fmap 4 D (some pk) :: R) =
      some (Frame.fseq 6 [] :: Frame.fmap 4 D (some pk) :: R) :=
    closeTo_of_le (by simp [frameInd])
  unfold procLine
  rw [hcl, hcr]
  simp

/-- Closing a finished step mapping back into the steps sequence. -/
theorem closeTo6_map8 (E : List (String × Yaml)) (items : List Yaml) (R : List Frame) :
    closeTo 6 (Frame.fmap 8 E none :: Frame.fseq 6 items :: R) =
      some (Frame.fseq 6 (items ++ [Yaml.ymap E]) :: R) := by
  show closeToAux 6 _ _ = _
  simp only [closeToAux, frameInd]
  rw [if_pos (by omega)]
  simp only [closeFrame, attachVal]
  exact closeToAux_of_le R (by simp [frameInd])

/-- Closing a finished branch sequence back into its `branches`/`needs` key. -/
theorem closeTo4_seq6 (L : List Yaml) (D : List (String × Yaml)) (pk : String)
    (R : List Frame) :
    closeTo 4 (Frame.fseq 6 L :: Frame.fmap 4 D (some pk) :: R) =
      some (Frame.fmap 4 (D ++ [(pk, Yaml.seq L)]) none :: R) := by
  show closeToAux 4 _ _ = _
  simp only [closeToAux, frameInd]
  rw [if_pos (by omega)]
  simp only [closeFrame, attachVal]
  exact closeToAux_of_le R (by simp [frameInd])

/-- Closing a finished trigger block back into the `on` mapping. -/
theorem closeTo2_trigger (L : List Yaml) (D : List (String × Yaml)) (ents : List (String × Yaml))
    (ty : String) (R : List Frame) :
    closeTo 2 (Frame.fseq 6 L :: Frame.fmap 4 D (some "branches") ::
        Frame.fmap 2 ents (some ty) :: R) =
      some (Frame.fmap 2 (ents ++ [(ty, Yaml.ymap (D ++ [("branches", Yaml.seq L)]))])
        none :: R) := by
  show closeToAux 2 _ _ = _
  simp only [closeToAux, frameInd]
  rw [if_pos (by omega)]
  simp only [closeFrame, attachVal]
  rw [if_pos (by omega)]
  exact closeToAux_of_le R (by simp [frameInd])

/-- Closing a finished job block back into the `jobs` mapping. -/
theorem closeTo2_job (L : List Yaml) (D : List (String × Yaml)) (ents : List (String × Yaml))
    (san : String) (R : List Frame) :
    closeTo 2 (Frame.fseq 6 L :: Frame.fmap 4 D (some "steps") ::
        Frame.fmap 2 ents (some san) :: R) =
      some (Frame.fmap 2 (ents ++ [(san, Yaml.ymap (D ++ [("steps", Yaml.seq L)]))])
        none :: R) := by
  show closeToAux 2 _ _ = _
  simp only [closeToAux, frameInd]
  rw [if_pos (by omega)]
  simp only [closeFrame, attachVal]
  rw [if_pos (by omega)]
  exact closeToAux_of_le R (by simp [frameInd])

theorem run_trigger (t : Trigger) (hst : safeTrigger t = true) (st : List Frame)
    (ents : List (String × Yaml)) (R : List Frame)
    (hc : closeTo 2 st = some (Frame.fmap 2 ents none :: R)) :
    ∃ st', runLines st (ghTriggerYs t) = some st' ∧
      closeTo 2 st' = some (Frame.fmap 2 (ents ++ [ghTriggerDoc t]) none :: R) := by
  obtain ⟨hty, hbne, hball, -, -⟩ := safeTrigger_parts hst
  have htype_plain : ∀ c ∈ t.type.data, c ≠ ':' := by
    rcases hty with h | h <;> rw [h] <;> decide
  obtain ⟨b, bs, hbs⟩ : ∃ b bs, t.branches = b :: bs := by
    cases hbl : t.branches with
    | nil => exact absurd hbl hbne
    | cons x xs => exact ⟨x, xs, rfl⟩
  have h1 : procLine st (⟨2, (t.type ++ ":").data⟩ : YLine) =
      procLine (Frame.fmap 2 ents none :: R) (⟨2, (t.type ++ ":").data⟩ : YLine) :=
    procLine_eq_of_closeTo hc
  have h2 := procLine_fmap_pending 2 ents none R t.type htype_plain
  have h3 := procLine_open_map_pending 2 4 ents t.type R "branches" (by omega)
    (by decide) (by decide)
  have h4 := procLine_open_seq_scalar 4 6 ([] : List (String × Yaml)) "branches"
    (Frame.fmap 2 ents (some t.type) :: R) b (by omega)
    (plain_colon_free (hball b (hbs ▸ List.mem_cons_self b bs)))
  have h5 := run_seq_scalars 6 bs
    (fun x hx => plain_colon_free (hball x (hbs ▸ List.mem_cons_of_mem b hx)))
    [Yaml.str b]
    (Frame.fmap 4 [] (some "branches") :: Frame.fmap 2 ents (some t.type) :: R)
  refine ⟨Frame.fseq 6 ([Yaml.str b] ++ bs.map Yaml.str) ::
    Frame.fmap 4 [] (some "branches") :: Frame.fmap 2 ents (some t.type) :: R, ?_, ?_⟩
  · simp only [ghTriggerYs, hbs, List.map_cons, runLines, h1, h2, resolveP, h3, h4, h5]
  · rw [closeTo2_trigger]
    simp [ghTriggerDoc, hbs]

theorem run_triggers (ts : List Trigger) (hall : ∀ t ∈ ts, safeTrigger t = true) :
    ∀ (st : List Frame) (ents : List (String × Yaml)) (R : List Frame),
      closeTo 2 st = some (Frame.fmap 2 ents none :: R) →
      ∃ st', runLines st ((ts.map ghTriggerYs).flatten) = some st' ∧
        closeTo 2 st' = some (Frame.fmap 2 (ents ++ ts.map ghTriggerDoc) none :: R) := by
  induction ts with
  | nil =>
    intro st ents R hc
    exact ⟨st, rfl, by simpa using hc⟩
  | cons t ts ih =>
    intro st ents R hc
    obtain ⟨st1, hrun1, hc1⟩ :=
      run_trigger t (hall t (List.mem_cons_self t ts)) st ents R hc
    obtain ⟨st2, hrun2, hc2⟩ :=
      ih (fun x hx => hall x (List.mem_cons_of_mem t hx)) st1 (ents ++ [ghTriggerDoc t]) R hc1
    refine ⟨st2, ?_, ?_⟩
    · rw [List.map_cons, List.flatten_cons, runLines_append]
      simp only [hrun1]
      exact hrun2
    · simpa [List.append_assoc] using hc2

theorem run_with_block (wa : List (String × String))
    (hplain : ∀ kv ∈ wa, plainScalar kv.1 = true)
    (E : List (String × Yaml)) (R8 : List Frame) :
    ∃ st', runLines (Frame.fmap 8 E none :: R8)
        (if wa ≠ [] then
          (⟨8, ("with" ++ ":").data⟩ : YLine) ::
            wa.map (fun kv => (⟨10, (kv.1 ++ ": " ++ kv.2).data⟩ : YLine))
         else []) = some st' ∧
      closeTo 8 st' = some (Frame.fmap 8
        (E ++ (if wa ≠ [] then
          [("with", Yaml.ymap (wa.map (fun kv => (kv.1, Yaml.str kv.2))))] else []))
        none :: R8) := by
  cases wa with
  | nil =>
    refine ⟨Frame.fmap 8 E none :: R8, rfl, ?_⟩
    have hcl : closeTo 8 (Frame.fmap 8 E none :: R8) =
        some (Frame.fmap 8 E none :: R8) :=
      closeTo_of_le (by simp [frameInd])
    simpa using hcl
  | cons kv kvs =>
    have h1 := procLine_fmap_pending 8 E none R8 "with" (by decide)
    have h2 := procLine_open_map_kv 8 10 E "with" R8 kv.1 kv.2 (by omega)
      (plain_colon_free (hplain kv (List.mem_cons_self kv kvs)))
      (plain_head_ne_dash (hplain kv (List.mem_cons_self kv kvs)))
    have h3 := run_map_kvs 10 kvs
      (fun x hx => plain_colon_free (hplain x (List.mem_cons_of_mem kv hx)))
      [(kv.1, Yaml.str kv.2)]
      (Frame.fmap 8 E (some "with") :: R8)
    refine ⟨Frame.fmap 10 ([(kv.1, Yaml.str kv.2)] ++
        kvs.map (fun x => (x.1, Yaml.str x.2))) none ::
      Frame.fmap 8 E (some "with") :: R8, ?_, ?_⟩
    · simp only [ne_eq, reduceCtorEq, not_false_eq_true, ite_true, if_true,
        List.map_cons, runLines, h1, resolveP, h2, h3]
    · show closeToAux 8 _ _ = _
      simp only [closeToAux, frameInd]
      rw [if_pos (by omega)]
      simp only [closeFrame, attachVal]
      rw [closeToAux_of_le R8 (by simp [frameInd])]
      simp

theorem run_if_suffix (ifc : String) (E : List (String × Yaml)) (items : List Yaml)
    (R : List Frame) (st : List Frame)
    (hc : closeTo 8 st = some (Frame.fmap 8 E none :: Frame.fseq 6 items :: R)) :
    ∃ st', runLines st
        (if ifc ≠ "" then [(⟨8, ("if" ++ ": " ++ ifc).data⟩ : YLine)] else []) = some st' ∧
      closeTo 6 st' = some (Frame.fseq 6 (items ++
        [Yaml.ymap (E ++ (if ifc ≠ "" then [("if", Yaml.str ifc)] else []))]) :: R) := by
  by_cases hi : ifc = ""
  · refine ⟨st, by simp [hi, runLines], ?_⟩
    have h6 := closeTo_trans (show (6 : Nat) ≤ 8 by omega) hc
    rw [h6, closeTo6_map8]
    simp [hi]
  · have h1 : procLine st (⟨8, ("if" ++ ": " ++ ifc).data⟩ : YLine) =
        procLine (Frame.fmap 8 E none :: Frame.fseq 6 items :: R)
          (⟨8, ("if" ++ ": " ++ ifc).data⟩ : YLine) :=
      procLine_eq_of_closeTo hc
    have h2 := procLine_fmap_kv 8 E none (Frame.fseq 6 items :: R) "if" ifc (by decide)
    refine ⟨Frame.fmap 8 (E ++ [("if", Yaml.str ifc)]) none ::
      Frame.fseq 6 items :: R, ?_, ?_⟩
    · simp only [hi, ne_eq, not_false_eq_true, ite_true, if_true, runLines, h1, h2, resolveP]
    · rw [closeTo6_map8]
      simp [hi]

theorem run_step (s : Step) (hs : safeStep s = true) (items : List Yaml) (R : List Frame)
    (st : List Frame) (hc : closeTo 6 st = some (Frame.fseq 6 items :: R)) :
    ∃ st', runLines st (ghStepYs s) = some st' ∧
      closeTo 6 st' = some (Frame.fseq 6 (items ++ [ghStepYaml s]) :: R) := by
  obtain ⟨hname, hur, hif, -, -⟩ := safeStep_parts hs
  rcases hur with ⟨hu, hr, hpu, hwall, -⟩ | ⟨hu, hr, hpr, hwnil⟩
  · -- uses branch
    by_cases hn : s.name = ""
    · have h1 : procLine st (⟨6, '-' :: ' ' :: ("uses" ++ ": " ++ s.uses).data⟩ : YLine) =
          procLine (Frame.fseq 6 items :: R)
            (⟨6, '-' :: ' ' :: ("uses" ++ ": " ++ s.uses).data⟩ : YLine) :=
        procLine_eq_of_closeTo hc
      have h2 := procLine_seq_item_kv 6 items R "uses" s.uses (by decide)
      obtain ⟨stw, hrunw, hcw⟩ := run_with_block s.withArgs
        (fun kv hkv => (hwall kv hkv).1) [("uses", Yaml.str s.uses)]
        (Frame.fseq 6 items :: R)
      obtain ⟨stf, hrunf, hcf⟩ := run_if_suffix s.ifCond _ items R stw hcw
      refine ⟨stf, ?_, ?_⟩
      · have hshape : ghStepYs s =
            (⟨6, '-' :: ' ' :: ("uses" ++ ": " ++ s.uses).data⟩ : YLine) ::
            ((if s.withArgs ≠ [] then
                (⟨8, ("with" ++ ":").data⟩ : YLine) ::
                  s.withArgs.map (fun kv => (⟨10, (kv.1 ++ ": " ++ kv.2).data⟩ : YLine))
              else []) ++
             (if s.ifCond ≠ "" then
                [(⟨8, ("if" ++ ": " ++ s.ifCond).data⟩ : YLine)] else [])) := by
          simp [ghStepYs, hn, hu]
        rw [hshape]
        simp only [runLines, h1, h2]
        rw [runLines_append]
        simp only [hrunw]
        exact hrunf
      · rw [hcf]
        simp [ghStepYaml, hn, hu]
    · have h1 : procLine st (⟨6, '-' :: ' ' :: ("name" ++ ": " ++ s.name).data⟩ : YLine) =
          procLine (Frame.fseq 6 items :: R)
            (⟨6, '-' :: ' ' :: ("name" ++ ": " ++ s.name).data⟩ : YLine) :=
        procLine_eq_of_closeTo hc
      have h2 := procLine_seq_item_kv 6 items R "name" s.name (by decide)
      have h3 := procLine_fmap_kv 8 [("name", Yaml.str s.name)] none
        (Frame.fseq 6 items :: R) "uses" s.uses (by decide)
      obtain ⟨stw, hrunw, hcw⟩ := run_with_block s.withArgs
        (fun kv hkv => (hwall kv hkv).1)
        [("name", Yaml.str s.name), ("uses", Yaml.str s.uses)]
        (Frame.fseq 6 items :: R)
      obtain ⟨stf, hrunf, hcf⟩ := run_if_suffix s.ifCond _ items R stw hcw
      refine ⟨stf, ?_, ?_⟩
      · have hshape : ghStepYs s =
            (⟨6, '-' :: ' ' :: ("name" ++ ": " ++ s.name).data⟩ : YLine) ::
            (⟨8, ("uses" ++ ": " ++ s.uses).data⟩ : YLine) ::
            ((if s.withArgs ≠ [] then
                (⟨8, ("with" ++ ":").data⟩ : YLine) ::
                  s.withArgs.map (fun kv => (⟨10, (kv.1 ++ ": " ++ kv.2).data⟩ : YLine))
              else []) ++
             (if s.ifCond ≠ "" then
                [(⟨8, ("if" ++ ": " ++ s.ifCond).data⟩ : YLine)] else [])) := by
          simp [ghStepYs, hn, hu]
        rw [hshape]
        simp only [runLines, h1, h2, h3, resolveP, List.cons_append, List.nil_append]
        rw [runLines_append]
        simp only [hrunw]
        exact hrunf
      · rw [hcf]
        simp [ghStepYaml, hn, hu]
  · -- run branch
    by_cases hn : s.name = ""
    · have h1 : procLine st (⟨6, '-' :: ' ' :: ("run" ++ ": " ++ s.run).data⟩ : YLine) =
          procLine (Frame.fseq 6 items :: R)
            (⟨6, '-' :: ' ' :: ("run" ++ ": " ++ s.run).data⟩ : YLine) :=
        procLine_eq_of_closeTo hc
      have h2 := procLine_seq_item_kv 6 items R "run" s.run (by decide)
      obtain ⟨stf, hrunf, hcf⟩ := run_if_suffix s.ifCond [("run", Yaml.str s.run)] items R
        (Frame.fmap 8 [("run", Yaml.str s.run)] none :: Frame.fseq 6 items :: R)
        (closeTo_of_le (by simp [frameInd]))
      refine ⟨stf, ?_, ?_⟩
      · have hshape : ghStepYs s =
            (⟨6, '-' :: ' ' :: ("run" ++ ": " ++ s.run).data⟩ : YLine) ::
            (if s.ifCond ≠ "" then
              [(⟨8, ("if" ++ ": " ++ s.ifCond).data⟩ : YLine)] else []) := by
          simp [ghStepYs, hn, hu, hr]
        rw [hshape]
        simp only [runLines, h1, h2]
        exact hrunf
      · rw [hcf]
        simp [ghStepYaml, hn, hu]
    · have h1 : procLine st (⟨6, '-' :: ' ' :: ("name" ++ ": " ++ s.name).data⟩ : YLine) =
          procLine (Frame.fseq 6 items :: R)
            (⟨6, '-' :: ' ' :: ("name" ++ ": " ++ s.name).data⟩ : YLine) :=
        procLine_eq_of_closeTo hc
      have h2 := procLine_seq_item_kv 6 items R "name" s.name (by decide)
      have h3 := procLine_fmap_kv 8 [("name", Yaml.str s.name)] none
        (Frame.fseq 6 items :: R) "run" s.run (by decide)
      obtain ⟨stf, hrunf, hcf⟩ := run_if_suffix s.ifCond
        [("name", Yaml.str s.name), ("run", Yaml.str s.run)] items R
        (Frame.fmap 8 [("name", Yaml.str s.name), ("run", Yaml.str s.run)] none ::
          Frame.fseq 6 items :: R)
        (closeTo_of_le (by simp [frameInd]))
      refine ⟨stf, ?_, ?_⟩
      · have hshape : ghStepYs s =
            (⟨6, '-' :: ' ' :: ("name" ++ ": " ++ s.name).data⟩ : YLine) ::
            (⟨8, ("run" ++ ": " ++ s.run).data⟩ : YLine) ::
            (if s.ifCond ≠ "" then
              [(⟨8, ("if" ++ ": " ++ s.ifCond).data⟩ : YLine)] else []) := by
          simp [ghStepYs, hn, hu, hr]
        rw [hshape]
        simp only [runLines, h1, h2, h3, resolveP, List.cons_append, List.nil_append]
        exact hrunf
      · rw [hcf]
        simp [ghStepYaml, hn, hu]

theorem run_steps (ss : List Step) (hall : ∀ s ∈ ss, safeStep s = true) :
    ∀ (items : List Yaml) (R : List Frame) (st : List Frame),
      closeTo 6 st = some (Frame.fseq 6 items :: R) →
      ∃ st', runLines st ((ss.map ghStepYs).flatten) = some st' ∧
        closeTo 6 st' = some (Frame.fseq 6 (items ++ ss.map ghStepYaml) :: R) := by
  induction ss with
  | nil =>
    intro items R st hc
    exact ⟨st, rfl, by simpa using hc⟩
  | cons s ss ih =>
    intro items R st hc
    obtain ⟨st1, hrun1, hc1⟩ := run_step s (hall s (List.mem_cons_self s ss)) items R st hc
    obtain ⟨st2, hrun2, hc2⟩ :=
      ih (fun x hx => hall x (List.mem_cons_of_mem s hx)) (items ++ [ghStepYaml s]) R st1 hc1
    refine ⟨st2, ?_, ?_⟩
    · rw [List.map_cons, List.flatten_cons, runLines_append]
      simp only [hrun1]
      exact hrun2
    · simpa [List.append_assoc] using hc2

theorem run_steps_from_pending (ss : List Step) (hall : ∀ s ∈ ss, safeStep s = true)
    (hne : ss ≠ []) (D : List (String × Yaml)) (pk : String) (R4 : List Frame) :
    runLines (Frame.fmap 4 D (some pk) :: R4) ((ss.map ghStepYs).flatten) =
      runLines (Frame.fseq 6 [] :: Frame.fmap 4 D (some pk) :: R4)
        ((ss.map ghStepYs).flatten) := by
  cases ss with
  | nil => exact absurd rfl hne
  | cons s ss =>
    obtain ⟨-, hur, -, -, -⟩ := safeStep_parts (hall s (List.mem_cons_self s ss))
    rcases hur with ⟨hu, hr, -, -, -⟩ | ⟨hu, hr, -, -⟩ <;> by_cases hn : s.name = "" <;>
    · simp only [List.map_cons, List.flatten_cons, ghStepYs, hn, hu, hr, ne_eq,
        not_false_eq_true, not_true_eq_false, ite_true, ite_false, if_true, if_false,
        List.cons_append]
      exact runLines_head_eq (procLine_steps_start D pk R4 _)

theorem run_needs_block (deps : List String) (hplain : ∀ d ∈ deps, plainScalar d = true)
    (D : List (String × Yaml)) (R4 : List Frame) :
    ∃ st', runLines (Frame.fmap 4 D none :: R4)
        (if deps ≠ [] then
          (⟨4, ("needs" ++ ":").data⟩ : YLine) ::
            deps.map (fun d => (⟨6, '-' :: ' ' :: d.data⟩ : YLine))
         else []) = some st' ∧
      closeTo 4 st' = some (Frame.fmap 4
        (D ++ (if deps ≠ [] then [("needs", Yaml.seq (deps.map Yaml.str))] else []))
        none :: R4) := by
  cases deps with
  | nil =>
    refine ⟨Frame.fmap 4 D none :: R4, rfl, ?_⟩
    have hcl : closeTo 4 (Frame.fmap 4 D none :: R4) =
        some (Frame.fmap 4 D none :: R4) :=
      closeTo_of_le (by simp [frameInd])
    simpa using hcl
  | cons d ds =>
    have h1 := procLine_fmap_pending 4 D none R4 "needs" (by decide)
    have h2 := procLine_open_seq_scalar 4 6 D "needs" R4 d (by omega)
      (plain_colon_free (hplain d (List.mem_cons_self d ds)))
    have h3 := run_seq_scalars 6 ds
      (fun x hx => plain_colon_free (hplain x (List.mem_cons_of_mem d hx)))
      [Yaml.str d]
      (Frame.fmap 4 D (some "needs") :: R4)
    refine ⟨Frame.fseq 6 ([Yaml.str d] ++ ds.map Yaml.str) ::
      Frame.fmap 4 D (some "needs") :: R4, ?_, ?_⟩
    · simp only [ne_eq, reduceCtorEq, not_false_eq_true, ite_true, if_true,
        List.map_cons, runLines, h1, resolveP, h2, h3]
    · rw [closeTo4_seq6]
      simp

theorem run_jobif_suffix (cond : String) (D : List (String × Yaml)) (R4 : List Frame)
    (st : List Frame) (hc : closeTo 4 st = some (Frame.fmap 4 D none :: R4)) :
    ∃ st', runLines st
        (if cond ≠ "" then
          [(⟨4, ("if" ++ ": " ++ convertCondition cond Platform.github).data⟩ : YLine)]
         else []) = some st' ∧
      closeTo 4 st' = some (Frame.fmap 4
        (D ++ (if cond ≠ "" then
          [("if", Yaml.str (convertCondition cond Platform.github))] else []))
        none :: R4) := by
  by_cases hi : cond = ""
  · refine ⟨st, by simp [hi, runLines], ?_⟩
    simpa [hi] using hc
  · have h1 : procLine st
        (⟨4, ("if" ++ ": " ++ convertCondition cond Platform.github).data⟩ : YLine) =
        procLine (Frame.fmap 4 D none :: R4)
          (⟨4, ("if" ++ ": " ++ convertCondition cond Platform.github).data⟩ : YLine) :=
      procLine_eq_of_closeTo hc
    have h2 := procLine_fmap_kv 4 D none R4 "if"
      (convertCondition cond Platform.github) (by decide)
    refine ⟨Frame.fmap 4 (D ++ [("if", Yaml.str (convertCondition cond Platform.github))])
      none :: R4, ?_, ?_⟩
    · simp only [hi, ne_eq, not_false_eq_true, ite_true, if_true, runLines, h1, h2, resolveP]
    · have hcl : closeTo 4
          (Frame.fmap 4 (D ++ [("if", Yaml.str (convertCondition cond Platform.github))])
            none :: R4) = some (Frame.fmap 4
          (D ++ [("if", Yaml.str (convertCondition cond Platform.github))]) none :: R4) :=
        closeTo_of_le (by simp [frameInd])
      simpa [hi] using hcl

/-- The entries of a job mapping before its `steps` key. -/
def jobHeadEntries (j : Job) : List (String × Yaml) :=
  [("runs-on", Yaml.str j.runsOn)] ++
  (if j.dependsOn ≠ [] then [("needs", Yaml.seq (j.dependsOn.map Yaml.str))] else []) ++
  (if j.condition ≠ "" then
    [("if", Yaml.str (convertCondition j.condition Platform.github))] else [])

theorem run_job (j : Job) (hsj : safeJob j = true) (st : List Frame)
    (ents : List (String × Yaml)) (R : List Frame)
    (hc : closeTo 2 st = some (Frame.fmap 2 ents none :: R)) :
    ∃ st', runLines st (ghJobYs j) = some st' ∧
      closeTo 2 st' = some (Frame.fmap 2
        (ents ++ [(sanitizeName j.name, ghJobYaml j)]) none :: R) := by
  obtain ⟨hsan, hro, hdall, hcond, -, -, -, -, hstall⟩ := safeJob_parts hsj
  have h1 : procLine st (⟨2, (sanitizeName j.name ++ ":").data⟩ : YLine) =
      procLine (Frame.fmap 2 ents none :: R)
        (⟨2, (sanitizeName j.name ++ ":").data⟩ : YLine) :=
    procLine_eq_of_closeTo hc
  have h2 := procLine_fmap_pending 2 ents none R (sanitizeName j.name)
    (plain_colon_free hsan)
  have h3 := procLine_open_map_kv 2 4 ents (sanitizeName j.name) R "runs-on" j.runsOn
    (by omega) (by decide) (by decide)
  obtain ⟨stN, hrunN, hcN⟩ := run_needs_block j.dependsOn hdall
    [("runs-on", Yaml.str j.runsOn)]
    (Frame.fmap 2 ents (some (sanitizeName j.name)) :: R)
  obtain ⟨stI, hrunI, hcI⟩ := run_jobif_suffix j.condition _
    (Frame.fmap 2 ents (some (sanitizeName j.name)) :: R) stN hcN
  have hcI' : closeTo 4 stI = some (Frame.fmap 4 (jobHeadEntries j) none ::
      Frame.fmap 2 ents (some (sanitizeName j.name)) :: R) := hcI
  have h4 : procLine stI (⟨4, ("steps" ++ ":").data⟩ : YLine) =
      procLine (Frame.fmap 4 (jobHeadEntries j) none ::
        Frame.fmap 2 ents (some (sanitizeName j.name)) :: R)
        (⟨4, ("steps" ++ ":").data⟩ : YLine) :=
    procLine_eq_of_closeTo hcI'
  have h5 := procLine_fmap_pending 4 (jobHeadEntries j) none
    (Frame.fmap 2 ents (some (sanitizeName j.name)) :: R) "steps" (by decide)
  by_cases hk : ghHasCheckout j.steps
  · have hne : j.steps ≠ [] := by
      intro h0
      rw [h0] at hk
      simp [ghHasCheckout] at hk
    have hstart := run_steps_from_pending j.steps hstall hne (jobHeadEntries j) "steps"
      (Frame.fmap 2 ents (some (sanitizeName j.name)) :: R)
    obtain ⟨stS, hrunS, hcS⟩ := run_steps j.steps hstall []
      (Frame.fmap 4 (jobHeadEntries j) (some "steps") ::
        Frame.fmap 2 ents (some (sanitizeName j.name)) :: R)
      (Frame.fseq 6 [] :: Frame.fmap 4 (jobHeadEntries j) (some "steps") ::
        Frame.fmap 2 ents (some (sanitizeName j.name)) :: R)
      (closeTo_of_le (by simp [frameInd]))
    refine ⟨stS, ?_, ?_⟩
    · have hshape : ghJobYs j =
          (⟨2, (sanitizeName j.name ++ ":").data⟩ : YLine) ::
          (⟨4, ("runs-on" ++ ": " ++ j.runsOn).data⟩ : YLine) ::
          ((if j.dependsOn ≠ [] then
              (⟨4, ("needs" ++ ":").data⟩ : YLine) ::
                j.dependsOn.map (fun d => (⟨6, '-' :: ' ' :: d.data⟩ : YLine))
            else []) ++
           ((if j.condition ≠ "" then
              [(⟨4, ("if" ++ ": " ++ convertCondition j.condition Platform.github).data⟩ :
                YLine)] else []) ++
            ((⟨4, ("steps" ++ ":").data⟩ : YLine) :: (j.steps.map ghStepYs).flatten))) := by
        simp [ghJobYs, hk, List.append_assoc]
      rw [hshape]
      simp only [runLines, h1, h2, resolveP, h3]
      rw [runLines_append]
      simp only [hrunN]
      rw [runLines_append]
      simp only [hrunI]
      simp only [runLines, h4, h5, resolveP]
      rw [hstart]
      exact hrunS
    · have hc2 := closeTo_trans (show (2 : Nat) ≤ 6 by omega) hcS
      rw [hc2, closeTo2_job]
      simp [ghJobYaml, jobHeadEntries, hk, List.append_assoc]
  · have h6 := procLine_open_seq_item_kv 4 6 (jobHeadEntries j) "steps"
      (Frame.fmap 2 ents (some (sanitizeName j.name)) :: R)
      "uses" "actions/checkout@v4" (by omega) (by decide)
    obtain ⟨stS, hrunS, hcS⟩ := run_steps j.steps hstall [checkoutYaml]
      (Frame.fmap 4 (jobHeadEntries j) (some "steps") ::
        Frame.fmap 2 ents (some (sanitizeName j.name)) :: R)
      (Frame.fmap 8 [("uses", Yaml.str "actions/checkout@v4")] none ::
        Frame.fseq 6 [] :: Frame.fmap 4 (jobHeadEntries j) (some "steps") ::
        Frame.fmap 2 ents (some (sanitizeName j.name)) :: R)
      (by rw [closeTo6_map8]; rfl)
    refine ⟨stS, ?_, ?_⟩
    · have hshape : ghJobYs j =
          (⟨2, (sanitizeName j.name ++ ":").data⟩ : YLine) ::
          (⟨4, ("runs-on" ++ ": " ++ j.runsOn).data⟩ : YLine) ::
          ((if j.dependsOn ≠ [] then
              (⟨4, ("needs" ++ ":").data⟩ : YLine) ::
                j.dependsOn.map (fun d => (⟨6, '-' :: ' ' :: d.data⟩ : YLine))
            else []) ++
           ((if j.condition ≠ "" then
              [(⟨4, ("if" ++ ": " ++ convertCondition j.condition Platform.github).data⟩ :
                YLine)] else []) ++
            ((⟨4, ("steps" ++ ":").data⟩ : YLine) ::
             (⟨6, '-' :: ' ' :: ("uses" ++ ": " ++ "actions/checkout@v4").data⟩ : YLine) ::
             (j.steps.map ghStepYs).flatten))) := by
        simp [ghJobYs, hk, List.append_assoc]
      rw [hshape]
      simp only [runLines, h1, h2, resolveP, h3]
      rw [runLines_append]
      simp only [hrunN]
      rw [runLines_append]
      simp only [hrunI]
      simp only [runLines, h4, h5, resolveP, h6]
      exact hrunS
    · have hc2 := closeTo_trans (show (2 : Nat) ≤ 6 by omega) hcS
      rw [hc2, closeTo2_job]
      simp [ghJobYaml, jobHeadEntries, hk, checkoutYaml, List.append_assoc]

theorem run_jobs (js : List Job) (hall : ∀ j ∈ js, safeJob j = true) :
    ∀ (st : List Frame) (ents : List (String × Yaml)) (R : List Frame),
      closeTo 2 st = some (Frame.fmap 2 ents none :: R) →
      ∃ st', runLines st ((js.map ghJobYs).flatten) = some st' ∧
        closeTo 2 st' = some (Frame.fmap 2
          (ents ++ js.map (fun j => (sanitizeName j.name, ghJobYaml j))) none :: R) := by
  induction js with
  | nil =>
    intro st ents R hc
    exact ⟨st, rfl, by simpa using hc⟩
  | cons j js ih =>
    intro st ents R hc
    obtain ⟨st1, hrun1, hc1⟩ := run_job j (hall j (List.mem_cons_self j js)) st ents R hc
    obtain ⟨st2, hrun2, hc2⟩ :=
      ih (fun x hx => hall x (List.mem_cons_of_mem j hx)) st1
        (ents ++ [(sanitizeName j.name, ghJobYaml j)]) R hc1
    refine ⟨st2, ?_, ?_⟩
    · rw [List.map_cons, List.flatten_cons, runLines_append]
      simp only [hrun1]
      exact hrun2
    · simpa [List.append_assoc] using hc2

theorem run_triggers_section (ts : List Trigger) (htall : ∀ t ∈ ts, safeTrigger t = true)
    (hne : ts ≠ []) (D : List (String × Yaml)) :
    ∃ st', runLines [Frame.fmap 0 D (some "on")] ((ts.map ghTriggerYs).flatten) = some st' ∧
      closeTo 0 st' =
        some [Frame.fmap 0 (D ++ [("on", Yaml.ymap (ts.map ghTriggerDoc))]) none] := by
  cases ts with
  | nil => exact absurd rfl hne
  | cons t ts' =>
    have hhd : (t.type ++ ":").data.head? ≠ some '-' := by
      obtain ⟨hty, -, -, -, -⟩ := safeTrigger_parts (htall t (List.mem_cons_self t ts'))
      rcases hty with hp | hp <;> rw [hp] <;> decide
    obtain ⟨tl, htl2⟩ : ∃ tl, ((t :: ts').map ghTriggerYs).flatten =
        (⟨2, (t.type ++ ":").data⟩ : YLine) :: tl :=
      ⟨(⟨4, ("branches" ++ ":").data⟩ : YLine) ::
        (t.branches.map (fun b => (⟨6, '-' :: ' ' :: b.data⟩ : YLine)) ++
          (ts'.map ghTriggerYs).flatten),
       by simp [ghTriggerYs]⟩
    rw [htl2, runLines_child_map D "on" [] _ tl hhd, ← htl2]
    obtain ⟨st', hrun, hcl⟩ := run_triggers (t :: ts') htall
      (Frame.fmap 2 [] none :: Frame.fmap 0 D (some "on") :: []) []
      [Frame.fmap 0 D (some "on")]
      (closeTo_of_le (by simp [frameInd]))
    refine ⟨st', hrun, ?_⟩
    rw [closeTo_trans (show (0 : Nat) ≤ 2 by omega) hcl]
    show closeToAux 0 _ _ = _
    simp only [closeToAux, frameInd]
    rw [if_pos (by omega)]
    simp [closeFrame, attachVal]

theorem run_jobs_section (js : List Job) (hjall : ∀ j ∈ js, safeJob j = true)
    (D : List (String × Yaml)) :
    ∃ st', runLines [Frame.fmap 0 D (some "jobs")] ((js.map ghJobYs).flatten) = some st' ∧
      closeAll st' = some (Yaml.ymap (D ++ [("jobs",
        if js = [] then Yaml.null
        else Yaml.ymap (js.map (fun j => (sanitizeName j.name, ghJobYaml j))))])) := by
  cases js with
  | nil =>
    refine ⟨[Frame.fmap 0 D (some "jobs")], rfl, ?_⟩
    simp [closeAll, closeAllAux, closeFrame]
  | cons j js' =>
    have hhd : (sanitizeName j.name ++ ":").data.head? ≠ some '-' := by
      obtain ⟨ch, rest, hch, ha⟩ :=
        (plainScalar_parts (safeJob_parts (hjall j (List.mem_cons_self j js'))).1).2
      have hd : (sanitizeName j.name ++ ":").data = (sanitizeName j.name).data ++ [':'] := by
        simp [String.data_append]
      rw [hd, hch]
      simp only [List.cons_append, List.head?_cons, ne_eq, Option.some.injEq]
      exact fun h => isAlpha_ne_dash ha h
    obtain ⟨tl, htl2⟩ : ∃ tl, ((j :: js').map ghJobYs).flatten =
        (⟨2, (sanitizeName j.name ++ ":").data⟩ : YLine) :: tl :=
      ⟨(⟨4, ("runs-on" ++ ": " ++ j.runsOn).data⟩ : YLine) ::
        (((if j.dependsOn ≠ [] then
            (⟨4, ("needs" ++ ":").data⟩ : YLine) ::
              j.dependsOn.map (fun d => (⟨6, '-' :: ' ' :: d.data⟩ : YLine))
          else []) ++
          ((if j.condition ≠ "" then
              [(⟨4, ("if" ++ ": " ++ convertCondition j.condition Platform.github).data⟩ :
                YLine)] else []) ++
           ((⟨4, ("steps" ++ ":").data⟩ : YLine) ::
            ((if ghHasCheckout j.steps then []
              else [(⟨6, '-' :: ' ' ::
                ("uses" ++ ": " ++ "actions/checkout@v4").data⟩ : YLine)]) ++
             (j.steps.map ghStepYs).flatten)))) ++ (js'.map ghJobYs).flatten),
       by simp [ghJobYs, List.append_assoc]⟩
    rw [htl2, runLines_child_map D "jobs" [] _ tl hhd, ← htl2]
    obtain ⟨st', hrun, hcl⟩ := run_jobs (j :: js') hjall
      (Frame.fmap 2 [] none :: Frame.fmap 0 D (some "jobs") :: []) []
      [Frame.fmap 0 D (some "jobs")]
      (closeTo_of_le (by simp [frameInd]))
    refine ⟨st', hrun, ?_⟩
    rw [closeAll_of_closeTo hcl]
    simp [closeAll, closeAllAux, attachVal, closeFrame]

/-- For every configuration in the GitHub round-trip class, decoding the
generated workflow text recovers exactly the intended document tree. -/
theorem decode_generate (c : PipelineConfig) (hsafe : safeCfg c = true) :
    decodeYaml (generateGitHub c) = some (ghDocOf c) := by
  obtain ⟨-, -, htall, -, hjall, -⟩ := safeCfg_parts hsafe
  have hur : ∀ j ∈ c.jobs, ∀ s ∈ j.steps, s.uses ≠ "" ∨ s.run ≠ "" := by
    intro j hj s hs1
    obtain ⟨-, hur1, -, -, -⟩ :=
      safeStep_parts ((safeJob_parts (hjall j hj)).2.2.2.2.2.2.2.2 s hs1)
    rcases hur1 with ⟨hu, -, -, -, -⟩ | ⟨-, hr, -, -⟩
    · exact Or.inl hu
    · exact Or.inr hr
  have htl : toLines (generateGitHub c) = ghDocYs c := by
    rw [generateGitHub_lines c hur, toLines_nlConcat _ (docLines_no_nl c hsafe),
      docLines_Ys c hsafe]
  unfold decodeYaml
  rw [htl]
  have h1 := procLine_fmap_kv 0 [] none [] "name" c.name (by decide)
  have h2 := procLine_fmap_pending 0 [("name", Yaml.str c.name)] none [] "on" (by decide)
  by_cases hct : c.triggers = []
  · have h3 := procLine_fmap_pending 0 [("name", Yaml.str c.name)] (some "on") []
      "jobs" (by decide)
    obtain ⟨stJ, hrunJ, hclJ⟩ := run_jobs_section c.jobs hjall
      [("name", Yaml.str c.name), ("on", Yaml.null)]
    simp only [ghDocYs, hct, List.map_nil, List.flatten_nil, List.nil_append, runLines,
      h1, h2, h3, resolveP, List.cons_append, List.append_nil, hrunJ, hclJ]
    simp [ghDocOf, hct]
  · obtain ⟨stT, hrunT, hclT⟩ := run_triggers_section c.triggers htall hct
      [("name", Yaml.str c.name)]
    have h3 : procLine stT (⟨0, ("jobs" ++ ":").data⟩ : YLine) =
        procLine [Frame.fmap 0
          [("name", Yaml.str c.name), ("on", Yaml.ymap (c.triggers.map ghTriggerDoc))] none]
          (⟨0, ("jobs" ++ ":").data⟩ : YLine) :=
      procLine_eq_of_closeTo hclT
    have h4 := procLine_fmap_pending 0
      [("name", Yaml.str c.name), ("on", Yaml.ymap (c.triggers.map ghTriggerDoc))]
      none [] "jobs" (by decide)
    obtain ⟨stJ, hrunJ, hclJ⟩ := run_jobs_section c.jobs hjall
      [("name", Yaml.str c.name), ("on", Yaml.ymap (c.triggers.map ghTriggerDoc))]
    simp only [ghDocYs, runLines, h1, h2, resolveP, List.cons_append, List.nil_append,
      List.append_nil]
    rw [runLines_append]
    simp only [hrunT]
    simp only [runLines, h3, h4, resolveP, List.cons_append, List.nil_append,
      List.append_nil, hrunJ, hclJ]
    simp [ghDocOf, hct]

theorem ghStepOf_rt (s : Step) (hs : safeStep s = true) :
    ghStepOf (ghStepYaml s) = some (rtStep s) := by
  obtain ⟨hname, hur, hif, -, -⟩ := safeStep_parts hs
  rcases hur with ⟨hu, hr, -, -, -⟩ | ⟨hu, hr, -, hwnil⟩
  · by_cases hn : s.name = "" <;> by_cases hw : s.withArgs = [] <;>
      by_cases hi : s.ifCond = "" <;>
      simp [ghStepYaml, ghStepOf, rtStep, getString, ymlGet, hn, hu, hr, hw, hi,
        Prod.mk.eta, fmtSprint, List.map_map, Function.comp_def]
  · by_cases hn : s.name = "" <;> by_cases hi : s.ifCond = "" <;>
      simp [ghStepYaml, ghStepOf, rtStep, getString, ymlGet, hn, hu, hr, hwnil, hi,
        fmtSprint]

theorem parse_steps_rt (ss : List Step) (hall : ∀ s ∈ ss, safeStep s = true) :
    (ss.map ghStepYaml).filterMap ghStepOf = ss.map rtStep := by
  induction ss with
  | nil => rfl
  | cons s ss ih =>
    have ih' := ih (fun x hx => hall x (List.mem_cons_of_mem s hx))
    simp only [List.map_cons, List.filterMap_cons,
      ghStepOf_rt s (hall s (List.mem_cons_self s ss)), ih']

theorem parseGHJob_rt (j : Job) (hsj : safeJob j = true) :
    parseGHJob (sanitizeName j.name)
      (("runs-on", Yaml.str j.runsOn) ::
       ((if j.dependsOn ≠ [] then [("needs", Yaml.seq (j.dependsOn.map Yaml.str))] else []) ++
        (if j.condition ≠ "" then
          [("if", Yaml.str (convertCondition j.condition Platform.github))] else []) ++
        [("steps", Yaml.seq
          ((if ghHasCheckout j.steps then [] else [checkoutYaml]) ++
            j.steps.map ghStepYaml))])) = rtJob j := by
  obtain ⟨-, -, -, -, -, -, -, -, hstall⟩ := safeJob_parts hsj
  have hsteps := parse_steps_rt j.steps hstall
  by_cases hd : j.dependsOn = [] <;> by_cases hc : j.condition = "" <;>
    by_cases hk : ghHasCheckout j.steps <;>
    simp [parseGHJob, rtJob, getString, ymlGet, hd, hc, hk, hsteps, checkoutYaml,
      checkoutStep, ghStepOf, fmtSprint, List.map_map, Function.comp_def,
      List.filterMap_append, List.filterMap_cons]

theorem parse_jobs_rt (js : List Job) (hall : ∀ j ∈ js, safeJob j = true) :
    (js.map (fun j => (sanitizeName j.name, ghJobYaml j))).filterMap ghJobOf =
      js.map rtJob := by
  induction js with
  | nil => rfl
  | cons j js ih =>
    have ih' := ih (fun x hx => hall x (List.mem_cons_of_mem j hx))
    have hhead : ghJobOf (sanitizeName j.name, ghJobYaml j) = some (rtJob j) := by
      show some (parseGHJob (sanitizeName j.name) _) = some (rtJob j)
      rw [parseGHJob_rt j (hall j (List.mem_cons_self j js))]
    simp only [List.map_cons, List.filterMap_cons, hhead, ih']

theorem parse_ghDocOf (c : PipelineConfig) (hsafe : safeCfg c = true) :
    parseGitHubDoc (ghDocOf c) = rtConfig c := by
  obtain ⟨-, -, htall, hshape, hjall, -⟩ := safeCfg_parts hsafe
  have hjobs := parse_jobs_rt c.jobs hjall
  rcases hts : c.triggers with _ | ⟨t1, _ | ⟨t2, _ | ⟨t3, ts4⟩⟩⟩
  · by_cases hcj : c.jobs = [] <;>
      simp [parseGitHubDoc, ghDocOf, rtConfig, getString, ymlGet, hts, hcj, hjobs]
  · obtain ⟨hty, -, -, -, -⟩ :=
      safeTrigger_parts (htall t1 (by rw [hts]; exact List.mem_cons_self _ _))
    rcases hty with hp | hp <;> by_cases hcj : c.jobs = [] <;>
      simp [parseGitHubDoc, ghDocOf, rtConfig, rtTrigger, ghTriggerDoc, getString,
        ymlGet, hts, hp, hcj, hjobs, fmtSprint, List.map_map, Function.comp_def]
  · have hsh : t1.type = "push" ∧ t2.type = "pull_request" := by
      rw [hts] at hshape
      simpa [triggerShapeOK] using hshape
    obtain ⟨hp1, hp2⟩ := hsh
    by_cases hcj : c.jobs = [] <;>
      simp [parseGitHubDoc, ghDocOf, rtConfig, rtTrigger, ghTriggerDoc, getString,
        ymlGet, hts, hp1, hp2, hcj, hjobs, fmtSprint, List.map_map, Function.comp_def]
  · rw [hts] at hshape
    simp [triggerShapeOK] at hshape

theorem map_id_of_mem {α : Type} (f : α → α) :
    ∀ (l : List α), (∀ x ∈ l, f x = x) → l.map f = l := by
  intro l
  induction l with
  | nil => intro _; rfl
  | cons a as ih =>
    intro h
    rw [List.map_cons, h a (List.mem_cons_self a as),
      ih (fun x hx => h x (List.mem_cons_of_mem a hx))]

theorem rtTrigger_id (t : Trigger) (hst : safeTrigger t = true) : rtTrigger t = t := by
  obtain ⟨-, -, -, hpaths, hcron⟩ := safeTrigger_parts hst
  cases t
  simp_all [rtTrigger]

theorem rtStep_id (s : Step) (hs : safeStep s = true) : rtStep s = s := by
  obtain ⟨-, -, -, henv, hwd⟩ := safeStep_parts hs
  cases s
  simp_all [rtStep]

theorem rtJob_id (j : Job) (hsj : safeJob j = true) (hn : sanitizeName j.name = j.name)
    (hk : ghHasCheckout j.steps = true) (hc : j.condition = "") : rtJob j = j := by
  obtain ⟨-, -, -, -, he, hs2, ha, hca, hstall⟩ := safeJob_parts hsj
  have hsteps : j.steps.map rtStep = j.steps :=
    map_id_of_mem rtStep j.steps (fun s hs => rtStep_id s (hstall s hs))
  cases j
  simp_all [rtJob]

theorem rtConfig_id (c : PipelineConfig) (hsafe : safeCfg c = true)
    (hnames : ∀ j ∈ c.jobs, sanitizeName j.name = j.name)
    (hck : ∀ j ∈ c.jobs, ghHasCheckout j.steps = true)
    (hcond : ∀ j ∈ c.jobs, j.condition = "") : rtConfig c = c := by
  obtain ⟨-, henv, htall, -, hjall, -⟩ := safeCfg_parts hsafe
  have htr : c.triggers.map rtTrigger = c.triggers :=
    map_id_of_mem rtTrigger c.triggers (fun t ht => rtTrigger_id t (htall t ht))
  have hjb : c.jobs.map rtJob = c.jobs :=
    map_id_of_mem rtJob c.jobs
      (fun j hj => rtJob_id j (hjall j hj) (hnames j hj) (hck j hj) (hcond j hj))
  cases c
  simp_all [rtConfig]

/-- The composite: decoding and re-parsing the generated workflow of a safe
configuration yields exactly the round-trip image `rtConfig`. -/
theorem parseGitHubText_generate (c : PipelineConfig) (hsafe : safeCfg c = true) :
    parseGitHubText (generateGitHub c) = Except.ok (rtConfig c) := by
  unfold parseGitHubText
  rw [decode_generate c hsafe]
  show Except.ok (parseGitHubDoc (ghDocOf c)) = _
  rw [parse_ghDocOf c hsafe]

/-- Number of checkout-equivalent steps in a step list. -/
def countCheckout (ss : List Step) : Nat :=
  (ss.filter (fun s => strContains s.uses "checkout")).length

theorem countCheckout_map_rtStep (ss : List Step) :
    countCheckout (ss.map rtStep) = countCheckout ss := by
  induction ss with
  | nil => rfl
  | cons s ss ih =>
    simp only [countCheckout, List.map_cons, List.filter_cons] at *
    cases hc : strContains (rtStep s).uses "checkout" with
    | true =>
      have hc' : strContains s.uses "checkout" = true := hc
      simp [hc, hc', ih]
    | false =>
      have hc' : strContains s.uses "checkout" = false := hc
      simp [hc, hc', ih]

theorem ghHasCheckout_map_rtStep (ss : List Step) :
    ghHasCheckout (ss.map rtStep) = ghHasCheckout ss := by
  simp [ghHasCheckout, List.any_map, Function.comp_def, rtStep]

theorem countCheckout_zero_of_not (ss : List Step) (h : ghHasCheckout ss = false) :
    countCheckout ss = 0 := by
  have hall : ∀ s ∈ ss, ¬ (strContains s.uses "checkout" = true) := by
    simpa [ghHasCheckout, List.any_eq_true] using h
  simp [countCheckout, List.filter_eq_nil_iff.mpr hall]

/- ------------------------------------------------------------------ -/
/- Claim C1: GitHub same-platform round trip                           -/
/- ------------------------------------------------------------------ -/

/-- A GitHub-representable configuration whose job has no checkout step. -/
def c1Cfg : PipelineConfig :=
  { name := "ci", triggers := [{ type := "push", branches := ["main"] }],
    jobs := [{ name := "build", runsOn := "ubuntu-latest", steps := [{ run := "make" }] }] }

/-- What the round trip actually produces for `c1Cfg`. -/
def c1Cfg2 : PipelineConfig :=
  { name := "ci", triggers := [{ type := "push", branches := ["main"] }],
    jobs := [{ name := "build", runsOn := "ubuntu-latest",
               steps := [{ uses := "actions/checkout@v4" }, { run := "make" }] }] }

/-- A configuration in the stable round-trip class: sanitize-fixed job name,
a checkout step present, no condition. -/
def c1W : PipelineConfig :=
  { name := "ci", triggers := [{ type := "push", branches := ["main"] }],
    jobs := [{ name := "build", runsOn := "ubuntu-latest",
               steps := [{ name := "Checkout", uses := "actions/checkout@v4" },
                         { run := "make" }] }] }

/-- C1 counterexample: the round trip is not the identity on every
representable configuration — re-parsing the generated workflow of `c1Cfg`
yields a job with an extra injected `actions/checkout@v4` step (two steps
instead of one), so the steps are not reproduced. -/
theorem C1_roundtrip_counterexample :
    parseGitHubText (generateGitHub c1Cfg) = Except.ok c1Cfg2 ∧
    c1Cfg2.jobs ≠ c1Cfg.jobs ∧
    c1Cfg.jobs.map (fun j => j.steps.length) = [1] ∧
    c1Cfg2.jobs.map (fun j => j.steps.length) = [2] := by
  exact ⟨by rfl, by decide, by decide, by decide⟩

/-- C1 (corrected): for every configuration in the GitHub round-trip class
(plain scalars, push/pull_request triggers with branches, exactly one of
uses/run per step) whose job names are `sanitizeName`-fixed, whose jobs all
already contain a checkout step, and whose jobs carry no condition,
parse-after-generate reproduces the configuration exactly: the same jobs
with the same steps in the same order and the same triggers, and generating
again yields the identical workflow text. -/
theorem C1_github_roundtrip (c : PipelineConfig) (hsafe : safeCfg c = true)
    (hnames : ∀ j ∈ c.jobs, sanitizeName j.name = j.name)
    (hck : ∀ j ∈ c.jobs, ghHasCheckout j.steps = true)
    (hcond : ∀ j ∈ c.jobs, j.condition = "") :
    ∃ c2, parseGitHubText (generateGitHub c) = Except.ok c2 ∧
      c2.jobs = c.jobs ∧ c2.triggers = c.triggers ∧
      generateGitHub c2 = generateGitHub c := by
  have h := parseGitHubText_generate c hsafe
  have hid := rtConfig_id c hsafe hnames hck hcond
  exact ⟨c, by rw [h, hid], rfl, rfl, rfl⟩

/-- Witness for C1 at a concrete configuration. -/
theorem C1_github_roundtrip_witness :
    safeCfg c1W = true ∧
    (∃ c2, parseGitHubText (generateGitHub c1W) = Except.ok c2 ∧
      c2.jobs = c1W.jobs ∧ c2.triggers = c1W.triggers ∧
      generateGitHub c2 = generateGitHub c1W) :=
  ⟨by decide,
   C1_github_roundtrip c1W (by decide) (by decide) (by decide) (by decide)⟩

/- ------------------------------------------------------------------ -/
/- Claim C3: checkout injection and idempotence                        -/
/- ------------------------------------------------------------------ -/

/-- A configuration whose single job already contains two checkout steps. -/
def c3Cfg : PipelineConfig :=
  { name := "ci", triggers := [{ type := "push", branches := ["main"] }],
    jobs := [{ name := "build", runsOn := "ubuntu-latest",
               steps := [{ name := "A", uses := "actions/checkout@v4" },
                         { name := "B", uses := "actions/checkout@v4" }] }] }

/-- A configuration whose single job has exactly one checkout step. -/
def c3W : PipelineConfig :=
  { name := "ci", triggers := [{ type := "push", branches := ["main"] }],
    jobs := [{ name := "deploy", runsOn := "ubuntu-latest",
               steps := [{ name := "Checkout", uses := "actions/checkout@v4" },
                         { run := "make deploy" }] }] }

/-- C3 counterexample: converting to GitHub twice can yield a job with two
checkout steps — if the input job already has two checkout-equivalent steps,
nothing deduplicates them: the re-parsed configuration keeps both, and the
second generated workflow again contains both checkout steps. -/
theorem C3_checkout_counterexample :
    parseGitHubText (generateGitHub c3Cfg) = Except.ok c3Cfg ∧
    c3Cfg.jobs.map (fun j => countCheckout j.steps) = [2] ∧
    containsStr (generateGitHub c3Cfg)
      ("        uses: actions/checkout@v4\n      - name: B\n        uses: actions/checkout@v4\n") := by
  exact ⟨by rfl, by decide, by decide⟩

/-- C3 (corrected): the generator injects `actions/checkout@v4` first in a
job exactly when no step of that job has the literal substring `checkout` in
its `uses`; and for every configuration in the round-trip class whose jobs
each contain at most one checkout-equivalent step, generating and re-parsing
yields jobs that all contain a checkout step and still at most one — so a
second generation injects nothing and never yields two checkout steps. -/
theorem C3_checkout_idempotent (c : PipelineConfig) (hsafe : safeCfg c = true)
    (hcount : ∀ j ∈ c.jobs, countCheckout j.steps ≤ 1) :
    (∀ j ∈ c.jobs, (ghHasCheckout j.steps = false ↔
      ∀ s ∈ j.steps, strContains s.uses "checkout" = false)) ∧
    ∃ c2, parseGitHubText (generateGitHub c) = Except.ok c2 ∧
      ∀ j2 ∈ c2.jobs, ghHasCheckout j2.steps = true ∧ countCheckout j2.steps ≤ 1 := by
  have hcs : strContains checkoutStep.uses "checkout" = true := by decide
  refine ⟨?_, rtConfig c, parseGitHubText_generate c hsafe, ?_⟩
  · intro j _
    simp [ghHasCheckout, List.any_eq_false]
  · intro j2 hj2
    simp only [rtConfig] at hj2
    obtain ⟨j, hj, rfl⟩ := List.mem_map.mp hj2
    cases hk : ghHasCheckout j.steps with
    | false =>
      constructor
      · show ghHasCheckout ((if ghHasCheckout j.steps then [] else [checkoutStep]) ++
          j.steps.map rtStep) = true
        rw [hk]
        simp only [Bool.false_eq_true, if_false, ite_false, List.singleton_append,
          ghHasCheckout, List.any_cons, hcs, Bool.true_or]
      · show countCheckout ((if ghHasCheckout j.steps then [] else [checkoutStep]) ++
          j.steps.map rtStep) ≤ 1
        rw [hk]
        have h1 : countCheckout (checkoutStep :: j.steps.map rtStep) =
            1 + countCheckout (j.steps.map rtStep) := by
          simp [countCheckout, List.filter_cons, hcs, Nat.add_comm]
        simp only [Bool.false_eq_true, if_false, ite_false, List.singleton_append, h1,
          countCheckout_map_rtStep, countCheckout_zero_of_not j.steps hk]
        omega
    | true =>
      constructor
      · show ghHasCheckout ((if ghHasCheckout j.steps then [] else [checkoutStep]) ++
          j.steps.map rtStep) = true
        simp [hk, ghHasCheckout_map_rtStep]
      · show countCheckout ((if ghHasCheckout j.steps then [] else [checkoutStep]) ++
          j.steps.map rtStep) ≤ 1
        simp only [hk, if_true, ite_true, List.nil_append, countCheckout_map_rtStep]
        exact hcount j hj

/-- Witness for C3 at a concrete configuration. -/
theorem C3_checkout_idempotent_witness :
    safeCfg c3W = true ∧ (∀ j ∈ c3W.jobs, countCheckout j.steps ≤ 1) ∧
    ((∀ j ∈ c3W.jobs, (ghHasCheckout j.steps = false ↔
        ∀ s ∈ j.steps, strContains s.uses "checkout" = false)) ∧
     ∃ c2, parseGitHubText (generateGitHub c3W) = Except.ok c2 ∧
       ∀ j2 ∈ c2.jobs, ghHasCheckout j2.steps = true ∧ countCheckout j2.steps ≤ 1) :=
  ⟨by decide, by decide, C3_checkout_idempotent c3W (by decide) (by decide)⟩

end CiCLI
